import Mathlib

/-
Verification of the flattening and normalization pipeline of the club-webapp
repository, embedded shallowly from src/etl.py and src/etl/gt_class_etl.py.

The two Python files contain the same two core functions,
transform_json_to_list (the Flattener) and transform (the Normalizer); the
bodies are line-for-line identical except for
  * the attributes resolution inside transform_json_to_list
    (etl.py overwrites one field in a loop; gt_class_etl.py builds a list
    comprehension and uses None when the index list is empty), and
  * the name of the Thursday column inside transform
    (etl.py writes the column "thurday", gt_class_etl.py writes "thursday");
    etl.py also removes the rows with missing times through
    df.drop(df[...isna().any(axis=1)].index) where gt_class_etl.py uses
    df.dropna(subset=[...]), which act identically on the unique RangeIndex.
Both versions are therefore embedded as one function parameterized by the
attributes resolver (Flattener) and by the Thursday column name (Normalizer).
-/

namespace ClubWebapp

/-- Python exception kinds reachable from the embedded code.  An IndexError
carries no payload: the Python message ("list index out of range") never
names the course or section being processed. -/
inductive PyErr where
  | indexError
  | keyError (label : String)
  | valueError
  deriving Repr, DecidableEq

/-- Python list indexing semantics: a non-negative index reads from the
front, a negative index wraps from the back, anything else is an
IndexError (modelled as none). -/
def pyIdx {α : Type} (xs : List α) (i : Int) : Option α :=
  if 0 ≤ i then xs.get? i.toNat
  else if 0 ≤ i + xs.length then xs.get? (i + xs.length).toNat
  else none

/-- Positional access into a tuple that may have been truncated: `a` is the
actual length of the tuple, `p` the position read, `v` the value stored at
that position when it exists.  Reading past the end is the IndexError that
Python raises on a short course/section/meeting tuple. -/
def tupGet {α : Type} (a : Nat) (p : Nat) (v : α) : Except PyErr α :=
  if p < a then .ok v else .error .indexError

/-- Indexing one of the caches tables, as in caches['periods'][idx]. -/
def cacheGet (xs : List String) (i : Int) : Except PyErr String :=
  match pyIdx xs i with
  | some v => .ok v
  | none => .error .indexError

/-- MeetingRecord: the fixed-position tuple
[periodIdx, dayCodes, buildingRaw, locationIdx, professors, dateRangeIdx].
`arity` is the actual tuple length, so that truncated tuples are
representable; positions at or past `arity` hold junk and raise on access. -/
structure MeetingRec where
  periodIdx : Int
  dayCodes : String
  buildingRaw : String
  locationIdx : Int
  professors : List String
  dateRangeIdx : Int
  arity : Nat := 6
  deriving Repr, DecidableEq

/-- SectionRecord: the fixed-position tuple
[crn, meetings, credits, scheduleTypeIdx, campusIdx, attributeIdxs],
again with an explicit actual length. -/
structure SectionRec where
  crn : String
  meetings : List MeetingRec
  credits : Int
  scheduleTypeIdx : Int
  campusIdx : Int
  attributeIdxs : List Int
  arity : Nat := 6
  deriving Repr, DecidableEq

/-- A value of the courses mapping: the pair [displayName, sections].
Python dicts preserve insertion order, so the sections mapping is an
ordered association list. -/
structure CourseRec where
  displayName : String
  sections : List (String × SectionRec)
  arity : Nat := 2
  deriving Repr, DecidableEq

/-- The five string caches plus locations (opaque here, kept as strings). -/
structure Caches where
  periods : List String
  locations : List String
  dateRanges : List String
  scheduleTypes : List String
  campuses : List String
  attributes : List String
  deriving Repr, DecidableEq

/-- The input document: caches plus the ordered courses mapping. -/
structure CatalogDoc where
  caches : Caches
  courses : List (String × CourseRec)
  deriving Repr, DecidableEq

/-- The dynamic value stored under the attributes key of a flat record:
etl.py leaves a string (or the raw empty list), gt_class_etl.py stores a
list of labels or None. -/
inductive AttrVal where
  | strV (s : String)
  | listV (xs : List String)
  | noneV
  deriving Repr, DecidableEq

/-- One flattened course-section dictionary.  A none field means the key is
absent from the Python dict (the meeting keys are only written inside the
`if course_details[1]:` branch). -/
structure FlatRecord where
  crn : String
  name : String
  actual_name : String
  sect : String
  time : Option String := none
  day_of_week : Option String := none
  building : Option String := none
  building_coords : Option String := none
  professors : Option (List String) := none
  date_range : Option String := none
  credits : Int := 0
  schedule_type : String := ""
  campus : String := ""
  attributes : AttrVal := .noneV
  deriving Repr, DecidableEq

/-- etl.py attributes loop: course_format['attributes'] starts as the raw
index list and is overwritten with caches['attributes'][a] for every a, so
only the last label survives.  Every index is still looked up, so any
out-of-range index raises. -/
def attrsEtlLoop (cache : List String) (cur : AttrVal) : List Int → Except PyErr AttrVal
  | [] => .ok cur
  | a :: rest =>
    match cacheGet cache a with
    | .error e => .error e
    | .ok lbl => attrsEtlLoop cache (.strV lbl) rest

/-- etl.py attributes resolution: the initial value is the raw
course_details[5] list, which is only observable when it is empty. -/
def attrsEtl (cache : List String) (idxs : List Int) : Except PyErr AttrVal :=
  attrsEtlLoop cache (.listV []) idxs

/-- gt_class_etl.py list comprehension, evaluated left to right. -/
def attrsGtLoop (cache : List String) : List Int → Except PyErr (List String)
  | [] => .ok []
  | a :: rest =>
    match cacheGet cache a with
    | .error e => .error e
    | .ok lbl =>
      match attrsGtLoop cache rest with
      | .error e => .error e
      | .ok out => .ok (lbl :: out)

/-- gt_class_etl.py attributes resolution:
[caches['attributes'][a] for a in course_details[5]] if course_details[5]
else None — an empty index list is falsy and yields None. -/
def attrsGt (cache : List String) (idxs : List Int) : Except PyErr AttrVal :=
  match idxs with
  | [] => .ok .noneV
  | _ => (attrsGtLoop cache idxs).map .listV

/-- The body of the `if course_details[1]:` branch: reads the six meeting
tuple positions and resolves the periods, locations and dateRanges caches. -/
def meetingFields (cs : Caches) (sd : MeetingRec) (base : FlatRecord) : Except PyErr FlatRecord := do
  let p0 ← tupGet sd.arity 0 sd.periodIdx
  let time ← cacheGet cs.periods p0
  let dow ← tupGet sd.arity 1 sd.dayCodes
  let bld ← tupGet sd.arity 2 sd.buildingRaw
  let p3 ← tupGet sd.arity 3 sd.locationIdx
  let coords ← cacheGet cs.locations p3
  let profs ← tupGet sd.arity 4 sd.professors
  let p5 ← tupGet sd.arity 5 sd.dateRangeIdx
  let dr ← cacheGet cs.dateRanges p5
  .ok { base with
        time := some time
        day_of_week := some dow
        building := some bld
        building_coords := some coords
        professors := some profs
        date_range := some dr }

/-- Everything the loop body computes for one section except the attributes
value: the shared prefix of both Python versions, in source order.  Returns
the record (attributes still unset) together with the raw attribute index
list read from position 5. -/
def buildRecordCore (cs : Caches) (i : String) (course : CourseRec) (l : String)
    (cd : SectionRec) : Except PyErr (FlatRecord × List Int) := do
  let crn ← tupGet cd.arity 0 cd.crn
  let actual ← tupGet course.arity 0 course.displayName
  let mtgs ← tupGet cd.arity 1 cd.meetings
  let base : FlatRecord := { crn := crn, name := i, actual_name := actual, sect := l }
  let r1 ← match mtgs with
    | [] => .ok base
    | sd :: _ => meetingFields cs sd base
  let credits ← tupGet cd.arity 2 cd.credits
  let p3 ← tupGet cd.arity 3 cd.scheduleTypeIdx
  let st ← cacheGet cs.scheduleTypes p3
  let p4 ← tupGet cd.arity 4 cd.campusIdx
  let cp ← cacheGet cs.campuses p4
  let aidx ← tupGet cd.arity 5 cd.attributeIdxs
  .ok ({ r1 with credits := credits, schedule_type := st, campus := cp }, aidx)

/-- One loop-body iteration: the shared core followed by the (version
specific) attributes resolution, which the source performs last. -/
def buildRecord (attrsFn : List String → List Int → Except PyErr AttrVal)
    (cs : Caches) (i : String) (course : CourseRec) (l : String)
    (cd : SectionRec) : Except PyErr FlatRecord := do
  let (r, aidx) ← buildRecordCore cs i course l cd
  let attrs ← attrsFn cs.attributes aidx
  .ok { r with attributes := attrs }

/-- The inner `for l in sections:` loop, appending one record per section. -/
def flattenSections (attrsFn : List String → List Int → Except PyErr AttrVal)
    (cs : Caches) (i : String) (course : CourseRec) :
    List (String × SectionRec) → Except PyErr (List FlatRecord)
  | [] => .ok []
  | (l, cd) :: rest => do
    let r ← buildRecord attrsFn cs i course l cd
    let rs ← flattenSections attrsFn cs i course rest
    .ok (r :: rs)

/-- The outer `for i in courses:` loop; sections = courses[i][1] is read
before the inner loop runs. -/
def flattenCourses (attrsFn : List String → List Int → Except PyErr AttrVal)
    (cs : Caches) : List (String × CourseRec) → Except PyErr (List FlatRecord)
  | [] => .ok []
  | (i, course) :: rest => do
    let secs ← tupGet course.arity 1 course.sections
    let rs ← flattenSections attrsFn cs i course secs
    let more ← flattenCourses attrsFn cs rest
    .ok (rs ++ more)

/-- transform_json_to_list of src/etl.py. -/
def transform_json_to_list_etl (doc : CatalogDoc) : Except PyErr (List FlatRecord) :=
  flattenCourses attrsEtl doc.caches doc.courses

/-- transform_json_to_list of src/etl/gt_class_etl.py. -/
def transform_json_to_list_gt (doc : CatalogDoc) : Except PyErr (List FlatRecord) :=
  flattenCourses attrsGt doc.caches doc.courses

/-- Python str.isdigit for the strings this pipeline sees: nonempty and all
characters decimal digits. -/
def pyIsDigit (s : String) : Bool :=
  !s.data.isEmpty && s.data.all Char.isDigit

/-- Numeric value of a digit character. -/
def dv (c : Char) : Nat := c.toNat - 48

/-- The minute part of the strptime %H%M regex, which must consume the whole
remaining input: the alternatives ([0-5]\d|\d) tried in order, where a
partial match that leaves characters unconsumed fails. -/
def tryMin : List Char → Option Nat
  | [a, b] => if (('0' ≤ a && a ≤ '5') && b.isDigit) then some (10 * dv a + dv b) else none
  | [d] => if d.isDigit then some (dv d) else none
  | _ => none

/-- datetime.strptime(s, "%H%M") as CPython implements it: the regex
(2[0-3]|[0-1]\d|\d)([0-5]\d|\d) matched with backtracking against the whole
string; none is the ValueError case.  Note a 3-digit string such as "800"
parses with a one-digit hour. -/
def strptimeHM (cs : List Char) : Option (Nat × Nat) :=
  (match cs with
   | '2' :: d :: rest =>
     if ('0' ≤ d && d ≤ '3') then (tryMin rest).map (fun m => (20 + dv d, m)) else none
   | _ => none).orElse (fun _ =>
  (match cs with
   | c :: d :: rest =>
     if (('0' ≤ c && c ≤ '1') && d.isDigit) then
       (tryMin rest).map (fun m => (10 * dv c + dv d, m))
     else none
   | _ => none).orElse (fun _ =>
  match cs with
  | c :: rest => if c.isDigit then (tryMin rest).map (fun m => (dv c, m)) else none
  | _ => none))

/-- transform_military_time of both sources: non-digit strings fall through
the if and return None; digit strings go to strptime, whose parse failure is
an uncaught ValueError. -/
def transform_military_time (s : String) : Except PyErr (Option (Nat × Nat)) :=
  if pyIsDigit s then
    match strptimeHM s.data with
    | some hm => .ok (some hm)
    | none => .error .valueError
  else .ok none

/-- The value transform_military_time leaves in the cell when it does not
raise: the parse when the string is all digits, absent otherwise. -/
def tmtVal (v : Option String) : Option (Nat × Nat) :=
  match v with
  | some s => if pyIsDigit s then strptimeHM s.data else none
  | none => none

/-- Python str.split(" - ") at character level: scan left to right, cutting
at each non-overlapping occurrence of the three-character separator; the
accumulator holds the current part reversed.  (Character-level so that it
evaluates inside the kernel, unlike String.splitOn.) -/
def splitDashChars : List Char → List Char → List (List Char)
  | [], acc => [acc.reverse]
  | ' ' :: '-' :: ' ' :: rest, acc => acc.reverse :: splitDashChars rest []
  | c :: rest, acc => splitDashChars rest (c :: acc)

/-- Python str.split(" - "), as pandas .str.split applies it per cell. -/
def splitDR (s : String) : List String :=
  (splitDashChars s.data []).map (fun cs => String.mk cs)

/-- The width of the DataFrame produced by .str.split(" - ", expand=True):
the maximum part count over the non-null cells (every use below is guarded
by the column containing at least one non-null string). -/
def seriesSplitWidth (vals : List (Option String)) : Nat :=
  (vals.filterMap (fun v => v.map (fun s => (splitDR s).length))).foldr Nat.max 0

/-- One cell of the expanded split when the frame width is 2: a null cell
gives two nulls, one part is padded with null on the right.  Three or more
parts cannot occur when the width is 2; that branch is unreachable. -/
def splitTwoOpt : Option String → Option String × Option String
  | none => (none, none)
  | some s =>
    match splitDR s with
    | [a] => (some a, none)
    | a :: b :: _ => (some a, some b)
    | [] => (none, none)

/-- A flat record together with its four split columns start_date, end_date,
start_time, end_time. -/
structure SplitRow where
  r : FlatRecord
  sd : Option String
  ed : Option String
  st : Option String
  et : Option String
  deriving Repr, DecidableEq

/-- Both split assignments applied to one record. -/
def splitRec (r : FlatRecord) : SplitRow :=
  let dr := splitTwoOpt r.date_range
  let tm := splitTwoOpt r.time
  { r := r, sd := dr.1, ed := dr.2, st := tm.1, et := tm.2 }

/-- The dropna(subset=['start_time', 'end_time']) predicate: the row is kept
when both raw time strings are non-null.  etl.py removes the same rows via
df.drop on the isna().any(axis=1) index. -/
def survives (w : SplitRow) : Bool := w.st.isSome && w.et.isSome

/-- pandas .str.contains(c, na=False) for a single literal character. -/
def strContains (v : Option String) (c : Char) : Bool :=
  match v with
  | none => false
  | some s => s.data.contains c

/-- Python \w: a word character (unicode variants beyond ASCII ignored). -/
def isWordChar (c : Char) : Bool := c.isAlphanum || c = '_'

/-- Does the regex \w+\d match a prefix of the given characters: at least
one word character followed by a digit (a digit is itself a word character,
so longer runs backtrack into the digit position). -/
def wPlusD : List Char → Bool
  | [] => false
  | c :: rest =>
    isWordChar c &&
      ((match rest with | d :: _ => d.isDigit | [] => false) || wPlusD rest)

/-- The capture of re.search(r"(.\x2a) \w+\d", s) on a list of characters:
the greedy group takes everything before the last space that is followed by
word characters and then a digit; the match need not reach the end of the
string.  If no such space exists anywhere, there is no match from any start
position and the result is null. -/
def extractGroup : List Char → Option (List Char)
  | [] => none
  | c :: rest =>
    match extractGroup rest with
    | some g => some (c :: g)
    | none => if c = ' ' && wPlusD rest then some [] else none

/-- The building column transformation df['building'].str.extract. -/
def extractBuilding (s : String) : Option String :=
  (extractGroup s.data).map (fun g => String.mk g)

/-- One output row of the transform DataFrame. -/
structure Row where
  crn : String
  name : String
  actual_name : String
  sect : String
  credits : Int
  schedule_type : String
  campus : String
  start_date : Option String
  end_date : Option String
  start_time : Option (Nat × Nat)
  end_time : Option (Nat × Nat)
  monday : Bool
  tuesday : Bool
  wednesday : Bool
  thursday : Bool
  friday : Bool
  building : Option String
  deriving Repr, DecidableEq

/-- The DataFrame transform returns: the column labels and the rows.  Both
sources compute identical row values; only the Thursday column label
differs, so the label list carries that difference. -/
structure Table where
  cols : List String
  rows : List Row
  deriving Repr, DecidableEq

/-- One surviving row assembled from the split record and the two converted
times: the five weekday flags test literal membership of M, T, W, R, F in
the day_of_week string (null gives all false via na=False), and building is
the regex extract of the raw building string. -/
def mkRow (w : SplitRow) (st et : Option (Nat × Nat)) : Row :=
  { crn := w.r.crn
    name := w.r.name
    actual_name := w.r.actual_name
    sect := w.r.sect
    credits := w.r.credits
    schedule_type := w.r.schedule_type
    campus := w.r.campus
    start_date := w.sd
    end_date := w.ed
    start_time := st
    end_time := et
    monday := strContains w.r.day_of_week 'M'
    tuesday := strContains w.r.day_of_week 'T'
    wednesday := strContains w.r.day_of_week 'W'
    thursday := strContains w.r.day_of_week 'R'
    friday := strContains w.r.day_of_week 'F'
    building := w.r.building.bind extractBuilding }

/-- The row a surviving record yields when neither apply call raises. -/
def okRow (w : SplitRow) : Row := mkRow w (tmtVal w.st) (tmtVal w.et)

/-- df[col].apply(transform_military_time) over one column of cells, in row
order; the first unparsable all-digit cell raises ValueError. -/
def applyCol : List (Option String) → Except PyErr (List (Option (Nat × Nat)))
  | [] => .ok []
  | v :: rest => do
    let t ← (match v with | some s => transform_military_time s | none => .ok none)
    let out ← applyCol rest
    .ok (t :: out)

/-- Zip the surviving rows with the two converted columns. -/
def finishRows : List SplitRow → List (Option (Nat × Nat)) → List (Option (Nat × Nat)) → List Row
  | w :: ws, st :: sts, et :: ets => mkRow w st et :: finishRows ws sts ets
  | _, _, _ => []

/-- The dict keys one flat record carries, in Python insertion order: the
six meeting keys are only present when the meeting branch ran. -/
def recKeys (r : FlatRecord) : List String :=
  ["crn", "name", "actual_name", "section"]
  ++ (if r.time.isSome then ["time"] else [])
  ++ (if r.day_of_week.isSome then ["day_of_week"] else [])
  ++ (if r.building.isSome then ["building"] else [])
  ++ (if r.building_coords.isSome then ["building_coords"] else [])
  ++ (if r.professors.isSome then ["professors"] else [])
  ++ (if r.date_range.isSome then ["date_range"] else [])
  ++ ["credits", "schedule_type", "campus", "attributes"]

/-- Append the keys not seen yet, keeping first-appearance order. -/
def addKeys (cols : List String) (ks : List String) : List String :=
  ks.foldl (fun cs k => if k ∈ cs then cs else cs ++ [k]) cols

/-- The columns of pd.DataFrame(course_list): the union of the dict keys in
order of first appearance; the empty list gives a frame with no columns. -/
def dfCols (rs : List FlatRecord) : List String :=
  rs.foldl (fun cs r => addKeys cs (recKeys r)) []

/-- df.drop(labels, axis=1) on the label list. -/
def removeCols (cols : List String) (bad : List String) : List String :=
  cols.filter (fun c => !(bad.contains c))

/-- The label list of the final DataFrame: the splits append start_date,
end_date, start_time, end_time, the originals date_range and time are
dropped, the five weekday columns are appended (thu is "thurday" in etl.py
and "thursday" in gt_class_etl.py) and day_of_week is dropped; the building
assignment rewrites an existing column in place. -/
def finalCols (thu : String) (cols1 : List String) : List String :=
  removeCols
    (removeCols (cols1 ++ ["start_date", "end_date", "start_time", "end_time"])
        ["date_range", "time"]
      ++ ["monday", "tuesday", "wednesday", thu, "friday"])
    ["day_of_week"]

/-- The transform function of both sources, parameterized by the Thursday
column name.  The steps, in source order, with every Python exception they
can raise:
1. df.drop(['attributes', 'building_coords', 'professors'], axis=1) raises
   KeyError when a label is missing (pandas reports every missing label in
   one message; the embedding keeps the first).
2. df['date_range'] raises KeyError when no record carries the key; the
   split assignment raises ValueError when the expanded width is not 2.
3. The same for df['time'].
4. The rows missing either raw time string are dropped.
5. apply(transform_military_time) over the surviving start_time column and
   then the end_time column can raise ValueError; pandas runs the whole
   start column first, which changes only which cell raises, never whether
   some cell raises, and the error value carries no position.
6. df['day_of_week'] raises KeyError when no record carries the key.
7. df['building'] likewise. -/
def transformWith (thu : String) (rs : List FlatRecord) : Except PyErr Table :=
  let cols0 := dfCols rs
  if "attributes" ∉ cols0 then .error (.keyError "attributes")
  else if "building_coords" ∉ cols0 then .error (.keyError "building_coords")
  else if "professors" ∉ cols0 then .error (.keyError "professors")
  else
    let cols1 := removeCols cols0 ["attributes", "building_coords", "professors"]
    if "date_range" ∉ cols1 then .error (.keyError "date_range")
    else if seriesSplitWidth (rs.map FlatRecord.date_range) ≠ 2 then .error .valueError
    else if "time" ∉ cols1 then .error (.keyError "time")
    else if seriesSplitWidth (rs.map FlatRecord.time) ≠ 2 then .error .valueError
    else
      let ws := (rs.map splitRec).filter survives
      match applyCol (ws.map SplitRow.st), applyCol (ws.map SplitRow.et) with
      | .error e, _ => .error e
      | .ok _, .error e => .error e
      | .ok sts, .ok ets =>
        if "day_of_week" ∉ cols1 then .error (.keyError "day_of_week")
        else if "building" ∉ cols1 then .error (.keyError "building")
        else .ok { cols := finalCols thu cols1, rows := finishRows ws sts ets }

/-- transform of src/etl.py (its Thursday column is spelled thurday). -/
def transform_etl (rs : List FlatRecord) : Except PyErr Table :=
  transformWith "thurday" rs

/-- transform of src/etl/gt_class_etl.py. -/
def transform_gt (rs : List FlatRecord) : Except PyErr Table :=
  transformWith "thursday" rs

/-- A fully populated flat record, as the Flattener emits for a section with
one meeting; used by the concrete checks below. -/
def rFull : FlatRecord :=
  { crn := "12345", name := "CS 1331", actual_name := "Object-Oriented Programming", sect := "A",
    time := some "0800 - 0915", day_of_week := some "MWF",
    building := some "Clough Undergraduate Learning Commons G25",
    building_coords := some "(33.7756, -84.3963)", professors := some ["Prof A"],
    date_range := some "2025-01-06 - 2025-05-02", credits := 3,
    schedule_type := "Lecture", campus := "Atlanta", attributes := .listV [] }

/-- The flat record of a section with no meetings: the six meeting keys are
absent. -/
def rNoMeeting : FlatRecord :=
  { crn := "99999", name := "CS 9000", actual_name := "Thesis", sect := "B",
    credits := 1, schedule_type := "Research", campus := "Atlanta", attributes := .listV [] }

/-- The meeting of the end-to-end example of the specification. -/
def exMeeting : MeetingRec :=
  { periodIdx := 0, dayCodes := "MWF", buildingRaw := "Clough G25",
    locationIdx := 0, professors := [], dateRangeIdx := 0 }

/-- The section of the end-to-end example of the specification. -/
def exSection : SectionRec :=
  { crn := "12345", meetings := [exMeeting], credits := 3,
    scheduleTypeIdx := 0, campusIdx := 0, attributeIdxs := [] }

/-- The caches of the end-to-end example of the specification. -/
def exCaches : Caches :=
  { periods := ["0800 - 0915"], locations := ["(33.7756, -84.3963)"],
    dateRanges := ["2025-01-06 - 2025-05-02"], scheduleTypes := ["Lecture"],
    campuses := ["Atlanta"], attributes := [] }

/-- The end-to-end example document of the specification. -/
def exDoc : CatalogDoc :=
  { caches := exCaches,
    courses := [("CS 1331",
      { displayName := "Object-Oriented Programming", sections := [("A", exSection)] })] }

/-- The example document with the scheduleTypes index of its only section
pointing past the end of the scheduleTypes cache. -/
def badIdxDoc : CatalogDoc :=
  { caches := exCaches,
    courses := [("CS 1331",
      { displayName := "Object-Oriented Programming",
        sections := [("A", { exSection with scheduleTypeIdx := 5 })] })] }

/-- A document whose only course has two sections, one with two attribute
indices and one with none, over an attributes cache of two labels. -/
def attrsDoc : CatalogDoc :=
  { caches := { exCaches with attributes := ["Honors", "Lab"] },
    courses := [("CS 1331",
      { displayName := "Object-Oriented Programming",
        sections := [("A", { exSection with attributeIdxs := [0, 1] }),
                     ("B", { exSection with crn := "54321", attributeIdxs := [] })] })] }

/-- The example document with its only section truncated to three tuple
positions. -/
def shortTupleDoc : CatalogDoc :=
  { caches := exCaches,
    courses := [("CS 1331",
      { displayName := "Object-Oriented Programming",
        sections := [("A", { exSection with arity := 3 })] })] }

/-- A record whose date range and time strings contain no " - " separator. -/
def rNoSep : FlatRecord :=
  { rFull with date_range := some "spring2025", time := some "spring2025" }

/-- A no-meeting section used to exercise the omission path end to end. -/
def cdNoMeet : SectionRec :=
  { crn := "99999", meetings := [], credits := 1,
    scheduleTypeIdx := 0, campusIdx := 0, attributeIdxs := [] }

/-- The course wrapping cdNoMeet. -/
def courseNoMeet : CourseRec :=
  { displayName := "Thesis", sections := [("B", cdNoMeet)] }

/-- The flat record the Flattener emits for cdNoMeet over exCaches. -/
def rB : FlatRecord :=
  { crn := "99999", name := "CS 9000", actual_name := "Thesis", sect := "B",
    credits := 1, schedule_type := "Lecture", campus := "Atlanta", attributes := .noneV }

/-- A placeholder table. -/
def emptyTable : Table := { cols := [], rows := [] }

/-- The concrete table transform_gt returns on [rFull]. -/
def tFull : Table := ((transform_gt [rFull]).toOption).getD emptyTable

/-- The concrete table transform_etl returns on [rFull]. -/
def tFullEtl : Table := ((transform_etl [rFull]).toOption).getD emptyTable

/-- The concrete table transform_gt returns on [rFull, rB]. -/
def tC6 : Table := ((transform_gt [rFull, rB]).toOption).getD emptyTable

/-- A record kept in output while its attributes value is dropped. -/
def stripAttrs (r : FlatRecord) : FlatRecord := { r with attributes := .noneV }

/-- Renaming that sends the etl.py Thursday label to the gt one. -/
def renameThu (c : String) : String := if c = "thurday" then "thursday" else c

/-- Is an integer a valid non-negative position of the list. -/
def idxOKb (xs : List String) (i : Int) : Bool :=
  decide (0 ≤ i) && decide (i < xs.length)

/-- Well-formed meeting tuple, after the data model: full arity, every cache
index in range. -/
def meetingWF (cs : Caches) (m : MeetingRec) : Bool :=
  decide (m.arity = 6) && idxOKb cs.periods m.periodIdx &&
    idxOKb cs.locations m.locationIdx && idxOKb cs.dateRanges m.dateRangeIdx

/-- Well-formed section tuple: full arity, well-formed meetings, every cache
index in range. -/
def sectionWF (cs : Caches) (s : SectionRec) : Bool :=
  decide (s.arity = 6) && s.meetings.all (meetingWF cs) &&
    idxOKb cs.scheduleTypes s.scheduleTypeIdx && idxOKb cs.campuses s.campusIdx &&
    s.attributeIdxs.all (fun a => idxOKb cs.attributes a)

/-- Well-formed course value: a full pair with well-formed sections. -/
def courseWF (cs : Caches) (c : CourseRec) : Bool :=
  decide (c.arity = 2) && c.sections.all (fun q => sectionWF cs q.2)

/-- Well-formed document, after the data model of the specification. -/
def docWF (doc : CatalogDoc) : Bool :=
  doc.courses.all (fun p => courseWF doc.caches p.2)

/-- A meeting tuple the Flattener cannot process: truncated, or with an
out-of-range cache index among the positions it reads. -/
def meetingMalformed (cs : Caches) (m : MeetingRec) : Bool :=
  decide (m.arity < 6) || (pyIdx cs.periods m.periodIdx).isNone ||
    (pyIdx cs.locations m.locationIdx).isNone || (pyIdx cs.dateRanges m.dateRangeIdx).isNone

/-- A section the Flattener cannot process: truncated tuple, bad first
meeting, or an out-of-range cache index in any position it reads. -/
def sectionMalformed (cs : Caches) (cd : SectionRec) : Bool :=
  decide (cd.arity < 6) ||
    (match cd.meetings with
     | m :: _ => meetingMalformed cs m
     | [] => false) ||
    (pyIdx cs.scheduleTypes cd.scheduleTypeIdx).isNone ||
    (pyIdx cs.campuses cd.campusIdx).isNone ||
    cd.attributeIdxs.any (fun a => (pyIdx cs.attributes a).isNone)

/-- A document containing a truncated course pair or a malformed section. -/
def docMalformed (doc : CatalogDoc) : Bool :=
  doc.courses.any (fun p => decide (p.2.arity < 2) ||
    p.2.sections.any (fun q => sectionMalformed doc.caches q.2))

/-- The (course identifier, section identifier) pairs of a document, in
iteration order. -/
def docPairs (doc : CatalogDoc) : List (String × String) :=
  doc.courses.flatMap (fun p => p.2.sections.map (fun q => (p.1, q.1)))

/-- The section crn values of a document, in iteration order. -/
def docCrns (doc : CatalogDoc) : List String :=
  doc.courses.flatMap (fun p => p.2.sections.map (fun q => q.2.crn))

theorem ok_bind {α β : Type} (a : α) (f : α → Except PyErr β) :
    (Except.ok a >>= f) = f a := rfl

theorem except_bind_ok {α β : Type} {x : Except PyErr α} {f : α → Except PyErr β} {b : β} :
    x >>= f = .ok b ↔ ∃ a, x = .ok a ∧ f a = .ok b := by
  cases x with
  | error e => simp [Bind.bind, Except.bind]
  | ok a => simp [Bind.bind, Except.bind]

theorem except_bind_err {α β : Type} {x : Except PyErr α} {f : α → Except PyErr β} {e : PyErr} :
    x >>= f = .error e ↔ x = .error e ∨ ∃ a, x = .ok a ∧ f a = .error e := by
  cases x with
  | error e2 => simp [Bind.bind, Except.bind]
  | ok a => simp [Bind.bind, Except.bind]

theorem tupGet_ok {α : Type} {a p : Nat} {v w : α} :
    tupGet a p v = .ok w ↔ p < a ∧ w = v := by
  unfold tupGet
  split <;> simp_all [eq_comm]

theorem tupGet_err {α : Type} {a p : Nat} {v : α} {e : PyErr}
    (h : tupGet a p v = .error e) : e = .indexError := by
  unfold tupGet at h
  split at h
  · cases h
  · cases h; rfl

theorem cacheGet_ok {xs : List String} {i : Int} {v : String} :
    cacheGet xs i = .ok v ↔ pyIdx xs i = some v := by
  unfold cacheGet
  split <;> simp_all

theorem cacheGet_err {xs : List String} {i : Int} {e : PyErr}
    (h : cacheGet xs i = .error e) : e = .indexError := by
  unfold cacheGet at h
  split at h
  · cases h
  · cases h; rfl

theorem tmt_ok {s : String} {t : Option (Nat × Nat)}
    (h : transform_military_time s = .ok t) : t = tmtVal (some s) := by
  unfold transform_military_time at h
  show t = if pyIsDigit s then strptimeHM s.data else none
  by_cases hd : pyIsDigit s
  · rw [if_pos hd] at h
    rw [if_pos hd]
    cases hs : strptimeHM s.data with
    | some hm => rw [hs] at h; cases h; rfl
    | none => rw [hs] at h; cases h
  · rw [if_neg hd] at h
    rw [if_neg hd]
    cases h; rfl

theorem applyCol_ok {vals : List (Option String)} {out : List (Option (Nat × Nat))}
    (h : applyCol vals = .ok out) : out = vals.map tmtVal := by
  induction vals generalizing out with
  | nil =>
    unfold applyCol at h
    cases h; rfl
  | cons v rest ih =>
    unfold applyCol at h
    rw [except_bind_ok] at h
    obtain ⟨t, ht, h⟩ := h
    rw [except_bind_ok] at h
    obtain ⟨os, hos, h⟩ := h
    cases h
    have hmap := ih hos
    subst hmap
    cases v with
    | none => cases ht; rfl
    | some s => rw [tmt_ok ht]; rfl

theorem finishRows_map (ws : List SplitRow) :
    finishRows ws ((ws.map SplitRow.st).map tmtVal) ((ws.map SplitRow.et).map tmtVal)
      = ws.map okRow := by
  induction ws with
  | nil => rfl
  | cons w ws ih => simp only [List.map_cons, finishRows, ih]; rfl

/-- Everything a successful transform determines: the rows are exactly the
surviving records in order, mapped through the pure per-row computation,
the columns are the final label list, and both split widths were 2. -/
theorem transformWith_ok {thu : String} {rs : List FlatRecord} {t : Table}
    (h : transformWith thu rs = .ok t) :
    t.rows = ((rs.map splitRec).filter survives).map okRow ∧
    t.cols = finalCols thu (removeCols (dfCols rs) ["attributes", "building_coords", "professors"]) ∧
    seriesSplitWidth (rs.map FlatRecord.date_range) = 2 ∧
    seriesSplitWidth (rs.map FlatRecord.time) = 2 := by
  simp only [transformWith] at h
  split at h
  · cases h
  split at h
  · cases h
  split at h
  · cases h
  split at h
  · cases h
  split at h
  · cases h
  split at h
  · cases h
  split at h
  · cases h
  split at h
  · cases h
  · cases h
  next sts ets hsts hets =>
    split at h
    · cases h
    split at h
    · cases h
    cases h
    refine ⟨?_, rfl, by omega, by omega⟩
    rw [applyCol_ok hsts, applyCol_ok hets, finishRows_map]

/-- The fourteen dict keys a flat record can carry. -/
def baseKeys : List String :=
  ["crn", "name", "actual_name", "section", "time", "day_of_week", "building",
   "building_coords", "professors", "date_range", "credits", "schedule_type",
   "campus", "attributes"]

theorem mem_ite_singleton {x k : String} {c : Bool} :
    (x ∈ if c then [k] else []) ↔ (x = k ∧ c = true) := by
  cases c <;> simp

theorem recKeys_subset {x : String} {r : FlatRecord} (h : x ∈ recKeys r) : x ∈ baseKeys := by
  simp only [recKeys, List.mem_append, mem_ite_singleton, List.mem_cons,
    List.not_mem_nil, or_false] at h
  simp only [baseKeys, List.mem_cons, List.not_mem_nil, or_false]
  tauto

theorem mem_addKeys {x : String} {cols ks : List String} :
    x ∈ addKeys cols ks ↔ x ∈ cols ∨ x ∈ ks := by
  induction ks generalizing cols with
  | nil => simp [addKeys]
  | cons k ks ih =>
    show x ∈ List.foldl _ (if k ∈ cols then cols else cols ++ [k]) ks ↔ _
    rw [show (List.foldl (fun cs k => if k ∈ cs then cs else cs ++ [k])
      (if k ∈ cols then cols else cols ++ [k]) ks : List String)
      = addKeys (if k ∈ cols then cols else cols ++ [k]) ks from rfl, ih]
    by_cases hk : k ∈ cols
    · simp only [if_pos hk, List.mem_cons]
      constructor
      · rintro (h | h)
        · exact Or.inl h
        · exact Or.inr (Or.inr h)
      · rintro (h | h | h)
        · exact Or.inl h
        · exact Or.inl (h ▸ hk)
        · exact Or.inr h
    · simp only [if_neg hk, List.mem_append, List.mem_singleton, List.mem_cons]
      tauto

theorem mem_dfCols {x : String} {rs : List FlatRecord} :
    x ∈ dfCols rs ↔ ∃ r ∈ rs, x ∈ recKeys r := by
  have key : ∀ (l : List FlatRecord) (acc : List String),
      x ∈ l.foldl (fun cs r => addKeys cs (recKeys r)) acc ↔ x ∈ acc ∨ ∃ r ∈ l, x ∈ recKeys r := by
    intro l
    induction l with
    | nil => simp
    | cons r l ih =>
      intro acc
      rw [List.foldl_cons, ih, mem_addKeys]
      simp only [List.mem_cons]
      constructor
      · rintro ((h | h) | ⟨r2, hr2, h⟩)
        · exact Or.inl h
        · exact Or.inr ⟨r, Or.inl rfl, h⟩
        · exact Or.inr ⟨r2, Or.inr hr2, h⟩
      · rintro (h | ⟨r2, hr2 | hr2, h⟩)
        · exact Or.inl (Or.inl h)
        · exact Or.inl (Or.inr (hr2 ▸ h))
        · exact Or.inr ⟨r2, hr2, h⟩
  rw [show dfCols rs = rs.foldl (fun cs r => addKeys cs (recKeys r)) [] from rfl, key]
  simp

theorem dfCols_subset {x : String} {rs : List FlatRecord} (h : x ∈ dfCols rs) : x ∈ baseKeys := by
  obtain ⟨r, -, hk⟩ := mem_dfCols.mp h
  exact recKeys_subset hk

theorem attributes_mem_recKeys (r : FlatRecord) : "attributes" ∈ recKeys r := by
  simp [recKeys]

theorem time_mem_recKeys {r : FlatRecord} : "time" ∈ recKeys r ↔ r.time.isSome := by
  simp [recKeys, mem_ite_singleton]

theorem day_mem_recKeys {r : FlatRecord} : "day_of_week" ∈ recKeys r ↔ r.day_of_week.isSome := by
  simp [recKeys, mem_ite_singleton]

theorem building_mem_recKeys {r : FlatRecord} : "building" ∈ recKeys r ↔ r.building.isSome := by
  simp [recKeys, mem_ite_singleton]

theorem coords_mem_recKeys {r : FlatRecord} :
    "building_coords" ∈ recKeys r ↔ r.building_coords.isSome := by
  simp [recKeys, mem_ite_singleton]

theorem professors_mem_recKeys {r : FlatRecord} :
    "professors" ∈ recKeys r ↔ r.professors.isSome := by
  simp [recKeys, mem_ite_singleton]

theorem date_range_mem_recKeys {r : FlatRecord} :
    "date_range" ∈ recKeys r ↔ r.date_range.isSome := by
  simp [recKeys, mem_ite_singleton]

theorem except_map_ok {α β : Type} {g : α → β} {x : Except PyErr α} {b : β} :
    x.map g = .ok b ↔ ∃ a, x = .ok a ∧ b = g a := by
  cases x <;> simp [Except.map, eq_comm]

theorem except_map_err {α β : Type} {g : α → β} {x : Except PyErr α} {e : PyErr} :
    x.map g = .error e ↔ x = .error e := by
  cases x <;> simp [Except.map]

theorem attrsEtlLoop_err {cache : List String} {cur : AttrVal} {idxs : List Int} {e : PyErr}
    (h : attrsEtlLoop cache cur idxs = .error e) : e = .indexError := by
  induction idxs generalizing cur with
  | nil => cases h
  | cons a rest ih =>
    unfold attrsEtlLoop at h
    split at h
    next he => cases h; exact cacheGet_err he
    next lbl hl => exact ih h

theorem attrsGtLoop_err {cache : List String} {idxs : List Int} {e : PyErr}
    (h : attrsGtLoop cache idxs = .error e) : e = .indexError := by
  induction idxs with
  | nil => cases h
  | cons a rest ih =>
    unfold attrsGtLoop at h
    split at h
    next he => cases h; exact cacheGet_err he
    next lbl hl =>
      split at h
      next he2 => cases h; exact ih he2
      next out ho => cases h

theorem attrsEtl_err {cache : List String} {idxs : List Int} {e : PyErr}
    (h : attrsEtl cache idxs = .error e) : e = .indexError :=
  attrsEtlLoop_err h

theorem attrsGt_err {cache : List String} {idxs : List Int} {e : PyErr}
    (h : attrsGt cache idxs = .error e) : e = .indexError := by
  unfold attrsGt at h
  split at h
  · cases h
  · exact attrsGtLoop_err (except_map_err.mp h)

theorem meetingFields_err {cs : Caches} {sd : MeetingRec} {base : FlatRecord} {e : PyErr}
    (h : meetingFields cs sd base = .error e) : e = .indexError := by
  simp only [meetingFields] at h
  rcases except_bind_err.mp h with h | ⟨a0, -, h⟩
  · exact tupGet_err h
  rcases except_bind_err.mp h with h | ⟨a1, -, h⟩
  · exact cacheGet_err h
  rcases except_bind_err.mp h with h | ⟨a2, -, h⟩
  · exact tupGet_err h
  rcases except_bind_err.mp h with h | ⟨a3, -, h⟩
  · exact tupGet_err h
  rcases except_bind_err.mp h with h | ⟨a4, -, h⟩
  · exact tupGet_err h
  rcases except_bind_err.mp h with h | ⟨a5, -, h⟩
  · exact cacheGet_err h
  rcases except_bind_err.mp h with h | ⟨a6, -, h⟩
  · exact tupGet_err h
  rcases except_bind_err.mp h with h | ⟨a7, -, h⟩
  · exact tupGet_err h
  rcases except_bind_err.mp h with h | ⟨a8, -, h⟩
  · exact cacheGet_err h
  cases h

theorem buildRecordCore_err {cs : Caches} {i : String} {course : CourseRec} {l : String}
    {cd : SectionRec} {e : PyErr}
    (h : buildRecordCore cs i course l cd = .error e) : e = .indexError := by
  simp only [buildRecordCore] at h
  rcases except_bind_err.mp h with h | ⟨a0, -, h⟩
  · exact tupGet_err h
  rcases except_bind_err.mp h with h | ⟨a1, -, h⟩
  · exact tupGet_err h
  rcases except_bind_err.mp h with h | ⟨mtgs, -, h⟩
  · exact tupGet_err h
  cases mtgs with
  | nil =>
    rcases except_bind_err.mp h with h | ⟨r1, -, h⟩
    · cases h
    rcases except_bind_err.mp h with h | ⟨a2, -, h⟩
    · exact tupGet_err h
    rcases except_bind_err.mp h with h | ⟨a3, -, h⟩
    · exact tupGet_err h
    rcases except_bind_err.mp h with h | ⟨a4, -, h⟩
    · exact cacheGet_err h
    rcases except_bind_err.mp h with h | ⟨a5, -, h⟩
    · exact tupGet_err h
    rcases except_bind_err.mp h with h | ⟨a6, -, h⟩
    · exact cacheGet_err h
    rcases except_bind_err.mp h with h | ⟨a7, -, h⟩
    · exact tupGet_err h
    cases h
  | cons sd ms =>
    rcases except_bind_err.mp h with h | ⟨r1, -, h⟩
    · exact meetingFields_err h
    rcases except_bind_err.mp h with h | ⟨a2, -, h⟩
    · exact tupGet_err h
    rcases except_bind_err.mp h with h | ⟨a3, -, h⟩
    · exact tupGet_err h
    rcases except_bind_err.mp h with h | ⟨a4, -, h⟩
    · exact cacheGet_err h
    rcases except_bind_err.mp h with h | ⟨a5, -, h⟩
    · exact tupGet_err h
    rcases except_bind_err.mp h with h | ⟨a6, -, h⟩
    · exact cacheGet_err h
    rcases except_bind_err.mp h with h | ⟨a7, -, h⟩
    · exact tupGet_err h
    cases h

theorem buildRecord_err {f : List String → List Int → Except PyErr AttrVal}
    {cs : Caches} {i : String} {course : CourseRec} {l : String} {cd : SectionRec} {e : PyErr}
    (Hf : ∀ cache idxs e2, f cache idxs = .error e2 → e2 = PyErr.indexError)
    (h : buildRecord f cs i course l cd = .error e) : e = .indexError := by
  simp only [buildRecord] at h
  rcases except_bind_err.mp h with h | ⟨⟨r, aidx⟩, -, h⟩
  · exact buildRecordCore_err h
  rcases except_bind_err.mp h with h | ⟨attrs, -, h⟩
  · exact Hf _ _ _ h
  cases h

theorem flattenSections_err {f : List String → List Int → Except PyErr AttrVal}
    {cs : Caches} {i : String} {course : CourseRec} {secs : List (String × SectionRec)} {e : PyErr}
    (Hf : ∀ cache idxs e2, f cache idxs = .error e2 → e2 = PyErr.indexError)
    (h : flattenSections f cs i course secs = .error e) : e = .indexError := by
  induction secs with
  | nil => cases h
  | cons p rest ih =>
    obtain ⟨l, cd⟩ := p
    simp only [flattenSections] at h
    rcases except_bind_err.mp h with h | ⟨r, -, h⟩
    · exact buildRecord_err Hf h
    rcases except_bind_err.mp h with h | ⟨rs, -, h⟩
    · exact ih h
    cases h

theorem flattenCourses_err {f : List String → List Int → Except PyErr AttrVal}
    {cs : Caches} {courses : List (String × CourseRec)} {e : PyErr}
    (Hf : ∀ cache idxs e2, f cache idxs = .error e2 → e2 = PyErr.indexError)
    (h : flattenCourses f cs courses = .error e) : e = .indexError := by
  induction courses with
  | nil => cases h
  | cons p rest ih =>
    obtain ⟨i, course⟩ := p
    simp only [flattenCourses] at h
    rcases except_bind_err.mp h with h | ⟨secs, -, h⟩
    · exact tupGet_err h
    rcases except_bind_err.mp h with h | ⟨rs, -, h⟩
    · exact flattenSections_err Hf h
    rcases except_bind_err.mp h with h | ⟨more, -, h⟩
    · exact ih h
    cases h

theorem attrsEtlLoop_all {cache : List String} {cur : AttrVal} {idxs : List Int} {v : AttrVal}
    (h : attrsEtlLoop cache cur idxs = .ok v) : ∀ a ∈ idxs, (pyIdx cache a).isSome := by
  induction idxs generalizing cur with
  | nil => intro a ha; cases ha
  | cons b rest ih =>
    unfold attrsEtlLoop at h
    split at h
    · cases h
    next lbl hl =>
      intro a ha
      rcases List.mem_cons.mp ha with rfl | ha
      · simp [cacheGet_ok.mp hl]
      · exact ih h a ha

theorem attrsGtLoop_all {cache : List String} {idxs : List Int} {v : List String}
    (h : attrsGtLoop cache idxs = .ok v) : ∀ a ∈ idxs, (pyIdx cache a).isSome := by
  induction idxs generalizing v with
  | nil => intro a ha; cases ha
  | cons b rest ih =>
    unfold attrsGtLoop at h
    split at h
    · cases h
    next lbl hl =>
      split at h
      · cases h
      next out ho =>
        intro a ha
        rcases List.mem_cons.mp ha with rfl | ha
        · simp [cacheGet_ok.mp hl]
        · exact ih ho a ha

theorem attrsEtl_all {cache : List String} {idxs : List Int} {v : AttrVal}
    (h : attrsEtl cache idxs = .ok v) : ∀ a ∈ idxs, (pyIdx cache a).isSome :=
  attrsEtlLoop_all h

theorem attrsGt_all {cache : List String} {idxs : List Int} {v : AttrVal}
    (h : attrsGt cache idxs = .ok v) : ∀ a ∈ idxs, (pyIdx cache a).isSome := by
  unfold attrsGt at h
  split at h
  · intro a ha; cases ha
  · obtain ⟨out, ho, -⟩ := except_map_ok.mp h
    exact attrsGtLoop_all ho

theorem attrsEtlLoop_ok_of {cache : List String} {idxs : List Int} (cur : AttrVal)
    (h : ∀ a ∈ idxs, (pyIdx cache a).isSome) :
    ∃ v, attrsEtlLoop cache cur idxs = .ok v := by
  induction idxs generalizing cur with
  | nil => exact ⟨cur, rfl⟩
  | cons b rest ih =>
    obtain ⟨lbl, hl⟩ := Option.isSome_iff_exists.mp (h b (List.mem_cons_self b rest))
    have step : cacheGet cache b = .ok lbl := cacheGet_ok.mpr hl
    unfold attrsEtlLoop
    rw [step]
    exact ih (.strV lbl) (fun a ha => h a (List.mem_cons_of_mem _ ha))

theorem attrsGtLoop_ok_of {cache : List String} {idxs : List Int}
    (h : ∀ a ∈ idxs, (pyIdx cache a).isSome) :
    ∃ v, attrsGtLoop cache idxs = .ok v := by
  induction idxs with
  | nil => exact ⟨[], rfl⟩
  | cons b rest ih =>
    obtain ⟨lbl, hl⟩ := Option.isSome_iff_exists.mp (h b (List.mem_cons_self b rest))
    have step : cacheGet cache b = .ok lbl := cacheGet_ok.mpr hl
    obtain ⟨out, ho⟩ := ih (fun a ha => h a (List.mem_cons_of_mem _ ha))
    refine ⟨lbl :: out, ?_⟩
    unfold attrsGtLoop
    rw [step, ho]

theorem attrsEtl_ok_of {cache : List String} {idxs : List Int}
    (h : ∀ a ∈ idxs, (pyIdx cache a).isSome) : ∃ v, attrsEtl cache idxs = .ok v :=
  attrsEtlLoop_ok_of (.listV []) h

theorem attrsGt_ok_of {cache : List String} {idxs : List Int}
    (h : ∀ a ∈ idxs, (pyIdx cache a).isSome) : ∃ v, attrsGt cache idxs = .ok v := by
  cases idxs with
  | nil => exact ⟨.noneV, rfl⟩
  | cons b rest =>
    obtain ⟨out, ho⟩ := attrsGtLoop_ok_of h
    refine ⟨.listV out, ?_⟩
    unfold attrsGt
    rw [ho]
    rfl

theorem meetingFields_ok {cs : Caches} {sd : MeetingRec} {base : FlatRecord} {r : FlatRecord}
    (h : meetingFields cs sd base = .ok r) :
    5 < sd.arity ∧ (pyIdx cs.periods sd.periodIdx).isSome ∧
    (pyIdx cs.locations sd.locationIdx).isSome ∧ (pyIdx cs.dateRanges sd.dateRangeIdx).isSome ∧
    r.crn = base.crn ∧ r.name = base.name ∧ r.sect = base.sect := by
  simp only [meetingFields] at h
  rcases except_bind_ok.mp h with ⟨p0, hp0, h1⟩
  rcases except_bind_ok.mp h1 with ⟨tv, htv, h2⟩
  rcases except_bind_ok.mp h2 with ⟨dow, hdow, h3⟩
  rcases except_bind_ok.mp h3 with ⟨bld, hbld, h4⟩
  rcases except_bind_ok.mp h4 with ⟨p3, hp3, h5⟩
  rcases except_bind_ok.mp h5 with ⟨cv, hcv, h6⟩
  rcases except_bind_ok.mp h6 with ⟨pf, hpf, h7⟩
  rcases except_bind_ok.mp h7 with ⟨p5, hp5, h8⟩
  rcases except_bind_ok.mp h8 with ⟨dr, hdr, h9⟩
  obtain ⟨hx0, rfl⟩ := tupGet_ok.mp hp0
  obtain ⟨hx3, rfl⟩ := tupGet_ok.mp hp3
  obtain ⟨hx5, rfl⟩ := tupGet_ok.mp hp5
  cases h9
  refine ⟨hx5, ?_, ?_, ?_, rfl, rfl, rfl⟩ <;>
    simp [cacheGet_ok.mp htv, cacheGet_ok.mp hcv, cacheGet_ok.mp hdr]

theorem buildRecordCore_ok {cs : Caches} {i : String} {course : CourseRec} {l : String}
    {cd : SectionRec} {r : FlatRecord} {aidx : List Int}
    (h : buildRecordCore cs i course l cd = .ok (r, aidx)) :
    r.crn = cd.crn ∧ r.name = i ∧ r.sect = l ∧ aidx = cd.attributeIdxs ∧
    5 < cd.arity ∧ 0 < course.arity ∧
    (pyIdx cs.scheduleTypes cd.scheduleTypeIdx).isSome ∧
    (pyIdx cs.campuses cd.campusIdx).isSome ∧
    (cd.meetings = [] → r.time = none ∧ r.day_of_week = none ∧ r.building = none ∧
      r.building_coords = none ∧ r.professors = none ∧ r.date_range = none) ∧
    (∀ m ms, cd.meetings = m :: ms → 5 < m.arity ∧ (pyIdx cs.periods m.periodIdx).isSome ∧
      (pyIdx cs.locations m.locationIdx).isSome ∧ (pyIdx cs.dateRanges m.dateRangeIdx).isSome) := by
  simp only [buildRecordCore] at h
  rcases except_bind_ok.mp h with ⟨crn0, hcrn, ha⟩
  rcases except_bind_ok.mp ha with ⟨an, han, hb⟩
  rcases except_bind_ok.mp hb with ⟨mtgs, hm, hc⟩
  obtain ⟨hc0, rfl⟩ := tupGet_ok.mp hcrn
  obtain ⟨hcourse, rfl⟩ := tupGet_ok.mp han
  obtain ⟨hm1, rfl⟩ := tupGet_ok.mp hm
  cases hmt : cd.meetings with
  | nil =>
    rw [hmt] at hc
    rcases except_bind_ok.mp hc with ⟨r1, hr1, hd⟩
    cases hr1
    rcases except_bind_ok.mp hd with ⟨cred, hcred, he⟩
    rcases except_bind_ok.mp he with ⟨p3, hp3, hf⟩
    rcases except_bind_ok.mp hf with ⟨st, hst, hg⟩
    rcases except_bind_ok.mp hg with ⟨p4, hp4, hh⟩
    rcases except_bind_ok.mp hh with ⟨cp, hcp, hi⟩
    rcases except_bind_ok.mp hi with ⟨ai, hai, hj⟩
    obtain ⟨hy2, rfl⟩ := tupGet_ok.mp hcred
    obtain ⟨hy3, rfl⟩ := tupGet_ok.mp hp3
    obtain ⟨hy4, rfl⟩ := tupGet_ok.mp hp4
    obtain ⟨hy5, rfl⟩ := tupGet_ok.mp hai
    cases hj
    refine ⟨rfl, rfl, rfl, rfl, hy5, hcourse, ?_, ?_, ?_, ?_⟩
    · simp [cacheGet_ok.mp hst]
    · simp [cacheGet_ok.mp hcp]
    · intro; exact ⟨rfl, rfl, rfl, rfl, rfl, rfl⟩
    · intro m ms hms; simp at hms
  | cons sd ms =>
    rw [hmt] at hc
    rcases except_bind_ok.mp hc with ⟨r1, hr1, hd⟩
    have hmf := meetingFields_ok hr1
    rcases except_bind_ok.mp hd with ⟨cred, hcred, he⟩
    rcases except_bind_ok.mp he with ⟨p3, hp3, hf⟩
    rcases except_bind_ok.mp hf with ⟨st, hst, hg⟩
    rcases except_bind_ok.mp hg with ⟨p4, hp4, hh⟩
    rcases except_bind_ok.mp hh with ⟨cp, hcp, hi⟩
    rcases except_bind_ok.mp hi with ⟨ai, hai, hj⟩
    obtain ⟨hy2, rfl⟩ := tupGet_ok.mp hcred
    obtain ⟨hy3, rfl⟩ := tupGet_ok.mp hp3
    obtain ⟨hy4, rfl⟩ := tupGet_ok.mp hp4
    obtain ⟨hy5, rfl⟩ := tupGet_ok.mp hai
    cases hj
    refine ⟨hmf.2.2.2.2.1, hmf.2.2.2.2.2.1, hmf.2.2.2.2.2.2, rfl, hy5, hcourse, ?_, ?_, ?_, ?_⟩
    · simp [cacheGet_ok.mp hst]
    · simp [cacheGet_ok.mp hcp]
    · intro habs; simp at habs
    · intro m ms2 hms
      cases hms
      exact ⟨hmf.1, hmf.2.1, hmf.2.2.1, hmf.2.2.2.1⟩

theorem buildRecord_ok {f : List String → List Int → Except PyErr AttrVal}
    {cs : Caches} {i : String} {course : CourseRec} {l : String} {cd : SectionRec} {r : FlatRecord}
    (h : buildRecord f cs i course l cd = .ok r) :
    ∃ r0 aidx attrs, buildRecordCore cs i course l cd = .ok (r0, aidx) ∧
      f cs.attributes aidx = .ok attrs ∧ r = { r0 with attributes := attrs } := by
  simp only [buildRecord] at h
  rcases except_bind_ok.mp h with ⟨⟨r0, aidx⟩, hc, h⟩
  rcases except_bind_ok.mp h with ⟨attrs, ha, h⟩
  cases h
  exact ⟨r0, aidx, attrs, hc, ha, rfl⟩

theorem isNone_false_of_isSome {α : Type} {o : Option α} (h : o.isSome) : o.isNone = false := by
  cases o
  · cases h
  · rfl

theorem sectionMalformed_false {cs : Caches} {cd : SectionRec}
    (h5 : 5 < cd.arity)
    (hst : (pyIdx cs.scheduleTypes cd.scheduleTypeIdx).isSome)
    (hcp : (pyIdx cs.campuses cd.campusIdx).isSome)
    (hmeet : ∀ m ms, cd.meetings = m :: ms → 5 < m.arity ∧ (pyIdx cs.periods m.periodIdx).isSome ∧
      (pyIdx cs.locations m.locationIdx).isSome ∧ (pyIdx cs.dateRanges m.dateRangeIdx).isSome)
    (hattr : ∀ a ∈ cd.attributeIdxs, (pyIdx cs.attributes a).isSome) :
    sectionMalformed cs cd = false := by
  have e1 : decide (cd.arity < 6) = false := by simp; omega
  have e3 : (pyIdx cs.scheduleTypes cd.scheduleTypeIdx).isNone = false := isNone_false_of_isSome hst
  have e4 : (pyIdx cs.campuses cd.campusIdx).isNone = false := isNone_false_of_isSome hcp
  have e5 : cd.attributeIdxs.any (fun a => (pyIdx cs.attributes a).isNone) = false := by
    rw [List.any_eq_false]
    intro a ha
    simp [isNone_false_of_isSome (hattr a ha)]
  cases hm2 : cd.meetings with
  | nil => simp [sectionMalformed, hm2, e1, e3, e4, e5]
  | cons m ms =>
    obtain ⟨hma, hp, hl, hd⟩ := hmeet m ms hm2
    have e2 : meetingMalformed cs m = false := by
      have f1 : decide (m.arity < 6) = false := by simp; omega
      simp [meetingMalformed, f1, isNone_false_of_isSome hp, isNone_false_of_isSome hl,
        isNone_false_of_isSome hd]
    simp [sectionMalformed, hm2, e1, e2, e3, e4, e5]

theorem buildRecord_not_mal {f : List String → List Int → Except PyErr AttrVal}
    (Hf : ∀ cache idxs v, f cache idxs = .ok v → ∀ a ∈ idxs, (pyIdx cache a).isSome)
    {cs : Caches} {i : String} {course : CourseRec} {l : String} {cd : SectionRec} {r : FlatRecord}
    (h : buildRecord f cs i course l cd = .ok r) : sectionMalformed cs cd = false := by
  obtain ⟨r0, aidx, attrs, hcore, hattrs, -⟩ := buildRecord_ok h
  obtain ⟨-, -, -, rfl, h5, -, hst, hcp, -, hmeet⟩ := buildRecordCore_ok hcore
  exact sectionMalformed_false h5 hst hcp hmeet (Hf _ _ _ hattrs)

theorem flattenSections_not_mal {f : List String → List Int → Except PyErr AttrVal}
    (Hf : ∀ cache idxs v, f cache idxs = .ok v → ∀ a ∈ idxs, (pyIdx cache a).isSome)
    {cs : Caches} {i : String} {course : CourseRec} {secs : List (String × SectionRec)}
    {rs : List FlatRecord} (h : flattenSections f cs i course secs = .ok rs) :
    ∀ p ∈ secs, sectionMalformed cs p.2 = false := by
  induction secs generalizing rs with
  | nil => intro p hp; cases hp
  | cons q rest ih =>
    obtain ⟨l, cd⟩ := q
    simp only [flattenSections] at h
    rcases except_bind_ok.mp h with ⟨r, hr, h2⟩
    rcases except_bind_ok.mp h2 with ⟨rs2, hrs2, h3⟩
    intro p hp
    rcases List.mem_cons.mp hp with rfl | hp
    · exact buildRecord_not_mal Hf hr
    · exact ih hrs2 p hp

theorem flattenCourses_not_mal {f : List String → List Int → Except PyErr AttrVal}
    (Hf : ∀ cache idxs v, f cache idxs = .ok v → ∀ a ∈ idxs, (pyIdx cache a).isSome)
    {cs : Caches} {courses : List (String × CourseRec)} {rs : List FlatRecord}
    (h : flattenCourses f cs courses = .ok rs) :
    ∀ p ∈ courses, ¬(p.2.arity < 2) ∧ ∀ q ∈ p.2.sections, sectionMalformed cs q.2 = false := by
  induction courses generalizing rs with
  | nil => intro p hp; cases hp
  | cons c rest ih =>
    obtain ⟨i, course⟩ := c
    simp only [flattenCourses] at h
    rcases except_bind_ok.mp h with ⟨secs, hsecs, h2⟩
    rcases except_bind_ok.mp h2 with ⟨rs1, hrs1, h3⟩
    rcases except_bind_ok.mp h3 with ⟨rs2, hrs2, h4⟩
    obtain ⟨h1a, rfl⟩ := tupGet_ok.mp hsecs
    intro p hp
    rcases List.mem_cons.mp hp with rfl | hp
    · exact ⟨(by omega : ¬(course.arity < 2)), flattenSections_not_mal Hf hrs1⟩
    · exact ih hrs2 p hp

theorem flatten_malformed {f : List String → List Int → Except PyErr AttrVal}
    (Hf : ∀ cache idxs v, f cache idxs = .ok v → ∀ a ∈ idxs, (pyIdx cache a).isSome)
    (HfE : ∀ cache idxs e2, f cache idxs = .error e2 → e2 = PyErr.indexError)
    {doc : CatalogDoc} (hmal : docMalformed doc = true) :
    flattenCourses f doc.caches doc.courses = .error .indexError := by
  cases hres : flattenCourses f doc.caches doc.courses with
  | ok rs =>
    exfalso
    have hall := flattenCourses_not_mal Hf hres
    unfold docMalformed at hmal
    rw [List.any_eq_true] at hmal
    obtain ⟨p, hp, hbad⟩ := hmal
    rw [Bool.or_eq_true] at hbad
    rcases hbad with hb | hb
    · exact (hall p hp).1 (by simpa using hb)
    · rw [List.any_eq_true] at hb
      obtain ⟨q, hq, hqq⟩ := hb
      rw [(hall p hp).2 q hq] at hqq
      cases hqq
  | error e => rw [flattenCourses_err HfE hres]

theorem pyIdx_some_of_wf {xs : List String} {i : Int} (h : idxOKb xs i = true) :
    (pyIdx xs i).isSome := by
  unfold idxOKb at h
  rw [Bool.and_eq_true, decide_eq_true_eq, decide_eq_true_eq] at h
  obtain ⟨h0, hl⟩ := h
  unfold pyIdx
  rw [if_pos h0]
  have hlt : i.toNat < xs.length := by omega
  rw [List.get?_eq_getElem?, List.getElem?_eq_getElem hlt]
  rfl

theorem meetingFields_wf_ok {cs : Caches} {sd : MeetingRec} (base : FlatRecord)
    (hw : meetingWF cs sd = true) :
    ∃ r, meetingFields cs sd base = .ok r ∧
      r.crn = base.crn ∧ r.name = base.name ∧ r.sect = base.sect := by
  unfold meetingWF at hw
  rw [Bool.and_eq_true, Bool.and_eq_true, Bool.and_eq_true, decide_eq_true_eq] at hw
  obtain ⟨⟨⟨h6, hp⟩, hl⟩, hd⟩ := hw
  obtain ⟨tv, htv⟩ := Option.isSome_iff_exists.mp (pyIdx_some_of_wf hp)
  obtain ⟨lv, hlv⟩ := Option.isSome_iff_exists.mp (pyIdx_some_of_wf hl)
  obtain ⟨dv2, hdv⟩ := Option.isSome_iff_exists.mp (pyIdx_some_of_wf hd)
  have hok : meetingFields cs sd base = .ok { base with
      time := some tv, day_of_week := some sd.dayCodes, building := some sd.buildingRaw,
      building_coords := some lv, professors := some sd.professors, date_range := some dv2 } := by
    simp only [meetingFields]
    refine except_bind_ok.mpr ⟨sd.periodIdx, tupGet_ok.mpr ⟨by omega, rfl⟩, ?_⟩
    refine except_bind_ok.mpr ⟨tv, cacheGet_ok.mpr htv, ?_⟩
    refine except_bind_ok.mpr ⟨sd.dayCodes, tupGet_ok.mpr ⟨by omega, rfl⟩, ?_⟩
    refine except_bind_ok.mpr ⟨sd.buildingRaw, tupGet_ok.mpr ⟨by omega, rfl⟩, ?_⟩
    refine except_bind_ok.mpr ⟨sd.locationIdx, tupGet_ok.mpr ⟨by omega, rfl⟩, ?_⟩
    refine except_bind_ok.mpr ⟨lv, cacheGet_ok.mpr hlv, ?_⟩
    refine except_bind_ok.mpr ⟨sd.professors, tupGet_ok.mpr ⟨by omega, rfl⟩, ?_⟩
    refine except_bind_ok.mpr ⟨sd.dateRangeIdx, tupGet_ok.mpr ⟨by omega, rfl⟩, ?_⟩
    refine except_bind_ok.mpr ⟨dv2, cacheGet_ok.mpr hdv, ?_⟩
    rfl
  exact ⟨_, hok, rfl, rfl, rfl⟩

theorem buildRecordCore_wf_ok {cs : Caches} {i : String} {course : CourseRec} {l : String}
    {cd : SectionRec} (hcourse : course.arity = 2) (hw : sectionWF cs cd = true) :
    ∃ pr, buildRecordCore cs i course l cd = .ok pr := by
  unfold sectionWF at hw
  rw [Bool.and_eq_true, Bool.and_eq_true, Bool.and_eq_true, Bool.and_eq_true,
    decide_eq_true_eq] at hw
  obtain ⟨⟨⟨⟨h6, hms⟩, hstw⟩, hcpw⟩, hattrw⟩ := hw
  obtain ⟨stv, hstv⟩ := Option.isSome_iff_exists.mp (pyIdx_some_of_wf hstw)
  obtain ⟨cpv, hcpv⟩ := Option.isSome_iff_exists.mp (pyIdx_some_of_wf hcpw)
  cases hmm : cd.meetings with
  | nil =>
    refine ⟨({ crn := cd.crn, name := i, actual_name := course.displayName, sect := l,
               credits := cd.credits, schedule_type := stv, campus := cpv },
             cd.attributeIdxs), ?_⟩
    simp only [buildRecordCore]
    rw [hmm]
    refine except_bind_ok.mpr ⟨cd.crn, tupGet_ok.mpr ⟨by omega, rfl⟩, ?_⟩
    refine except_bind_ok.mpr ⟨course.displayName, tupGet_ok.mpr ⟨by omega, rfl⟩, ?_⟩
    refine except_bind_ok.mpr ⟨[], tupGet_ok.mpr ⟨by omega, rfl⟩, ?_⟩
    refine except_bind_ok.mpr ⟨_, rfl, ?_⟩
    refine except_bind_ok.mpr ⟨cd.credits, tupGet_ok.mpr ⟨by omega, rfl⟩, ?_⟩
    refine except_bind_ok.mpr ⟨cd.scheduleTypeIdx, tupGet_ok.mpr ⟨by omega, rfl⟩, ?_⟩
    refine except_bind_ok.mpr ⟨stv, cacheGet_ok.mpr hstv, ?_⟩
    refine except_bind_ok.mpr ⟨cd.campusIdx, tupGet_ok.mpr ⟨by omega, rfl⟩, ?_⟩
    refine except_bind_ok.mpr ⟨cpv, cacheGet_ok.mpr hcpv, ?_⟩
    refine except_bind_ok.mpr ⟨cd.attributeIdxs, tupGet_ok.mpr ⟨by omega, rfl⟩, ?_⟩
    rfl
  | cons m ms =>
    have hmwf : meetingWF cs m = true := by
      rw [List.all_eq_true] at hms
      exact hms m (by rw [hmm]; exact List.mem_cons_self m ms)
    obtain ⟨r1, hr1, -, -, -⟩ := meetingFields_wf_ok
      { crn := cd.crn, name := i, actual_name := course.displayName, sect := l } hmwf
    refine ⟨({ r1 with credits := cd.credits, schedule_type := stv, campus := cpv },
             cd.attributeIdxs), ?_⟩
    simp only [buildRecordCore]
    rw [hmm]
    refine except_bind_ok.mpr ⟨cd.crn, tupGet_ok.mpr ⟨by omega, rfl⟩, ?_⟩
    refine except_bind_ok.mpr ⟨course.displayName, tupGet_ok.mpr ⟨by omega, rfl⟩, ?_⟩
    refine except_bind_ok.mpr ⟨m :: ms, tupGet_ok.mpr ⟨by omega, rfl⟩, ?_⟩
    refine except_bind_ok.mpr ⟨r1, hr1, ?_⟩
    refine except_bind_ok.mpr ⟨cd.credits, tupGet_ok.mpr ⟨by omega, rfl⟩, ?_⟩
    refine except_bind_ok.mpr ⟨cd.scheduleTypeIdx, tupGet_ok.mpr ⟨by omega, rfl⟩, ?_⟩
    refine except_bind_ok.mpr ⟨stv, cacheGet_ok.mpr hstv, ?_⟩
    refine except_bind_ok.mpr ⟨cd.campusIdx, tupGet_ok.mpr ⟨by omega, rfl⟩, ?_⟩
    refine except_bind_ok.mpr ⟨cpv, cacheGet_ok.mpr hcpv, ?_⟩
    refine except_bind_ok.mpr ⟨cd.attributeIdxs, tupGet_ok.mpr ⟨by omega, rfl⟩, ?_⟩
    rfl

theorem buildRecord_wf_ok {f : List String → List Int → Except PyErr AttrVal}
    {cs : Caches} {i : String} {course : CourseRec} {l : String} {cd : SectionRec}
    (Hf : ∀ idxs, (∀ a ∈ idxs, (pyIdx cs.attributes a).isSome) →
      ∃ v, f cs.attributes idxs = .ok v)
    (hcourse : course.arity = 2) (hw : sectionWF cs cd = true) :
    ∃ r, buildRecord f cs i course l cd = .ok r ∧
      r.crn = cd.crn ∧ r.name = i ∧ r.sect = l := by
  obtain ⟨⟨r0, aidx⟩, hc⟩ := buildRecordCore_wf_ok (i := i) (l := l) hcourse hw
  obtain ⟨hcrn, hname, hsect, rfl, -⟩ := buildRecordCore_ok hc
  have hattr2 : ∀ a ∈ cd.attributeIdxs, (pyIdx cs.attributes a).isSome := by
    intro a ha
    unfold sectionWF at hw
    rw [Bool.and_eq_true] at hw
    have hall := hw.2
    rw [List.all_eq_true] at hall
    exact pyIdx_some_of_wf (hall a ha)
  obtain ⟨av, hav⟩ := Hf _ hattr2
  refine ⟨{ r0 with attributes := av }, ?_, hcrn, hname, hsect⟩
  simp only [buildRecord]
  refine except_bind_ok.mpr ⟨(r0, cd.attributeIdxs), hc, ?_⟩
  refine except_bind_ok.mpr ⟨av, hav, ?_⟩
  rfl

theorem flattenSections_wf_ok {f : List String → List Int → Except PyErr AttrVal}
    {cs : Caches} {i : String} {course : CourseRec}
    (Hf : ∀ idxs, (∀ a ∈ idxs, (pyIdx cs.attributes a).isSome) →
      ∃ v, f cs.attributes idxs = .ok v)
    (hcourse : course.arity = 2) {secs : List (String × SectionRec)}
    (hsecs : ∀ q ∈ secs, sectionWF cs q.2 = true) :
    ∃ rs, flattenSections f cs i course secs = .ok rs ∧
      rs.map (fun r => (r.name, r.sect)) = secs.map (fun q => (i, q.1)) ∧
      rs.map FlatRecord.crn = secs.map (fun q => q.2.crn) := by
  induction secs with
  | nil => exact ⟨[], rfl, rfl, rfl⟩
  | cons q rest ih =>
    obtain ⟨l, cd⟩ := q
    obtain ⟨r, hr, hcrn, hname, hsect⟩ :=
      buildRecord_wf_ok Hf hcourse (hsecs _ (List.mem_cons_self _ _))
    obtain ⟨rs, hrs, hp, hc⟩ := ih (fun q hq => hsecs q (List.mem_cons_of_mem _ hq))
    refine ⟨r :: rs, ?_, ?_, ?_⟩
    · simp only [flattenSections]
      rw [hr, ok_bind, hrs, ok_bind]
    · simp [hname, hsect, hp]
    · simp [hcrn, hc]

theorem flattenCourses_wf_ok {f : List String → List Int → Except PyErr AttrVal} {cs : Caches}
    (Hf : ∀ idxs, (∀ a ∈ idxs, (pyIdx cs.attributes a).isSome) →
      ∃ v, f cs.attributes idxs = .ok v)
    {courses : List (String × CourseRec)}
    (hw : ∀ p ∈ courses, courseWF cs p.2 = true) :
    ∃ rs, flattenCourses f cs courses = .ok rs ∧
      rs.map (fun r => (r.name, r.sect))
        = courses.flatMap (fun p => p.2.sections.map (fun q => (p.1, q.1))) ∧
      rs.map FlatRecord.crn
        = courses.flatMap (fun p => p.2.sections.map (fun q => q.2.crn)) := by
  induction courses with
  | nil => exact ⟨[], rfl, rfl, rfl⟩
  | cons c rest ih =>
    obtain ⟨i, course⟩ := c
    have hcw := hw _ (List.mem_cons_self _ _)
    unfold courseWF at hcw
    rw [Bool.and_eq_true, decide_eq_true_eq, List.all_eq_true] at hcw
    obtain ⟨h2, hsecs⟩ := hcw
    have h2' : course.arity = 2 := h2
    obtain ⟨rs1, hrs1, hp1, hc1⟩ := flattenSections_wf_ok (i := i) Hf h2' hsecs
    obtain ⟨rs2, hrs2, hp2, hc2⟩ := ih (fun p hp => hw p (List.mem_cons_of_mem _ hp))
    refine ⟨rs1 ++ rs2, ?_, ?_, ?_⟩
    · simp only [flattenCourses]
      rw [show tupGet course.arity 1 course.sections = .ok course.sections from
        tupGet_ok.mpr ⟨by omega, rfl⟩, ok_bind, hrs1, ok_bind, hrs2, ok_bind]
    · simp [hp1, hp2]
    · simp [hc1, hc2]

theorem applyCol_ok_of {vals : List (Option String)}
    (h : ∀ v ∈ vals, ∀ s, v = some s → pyIsDigit s = true → (strptimeHM s.data).isSome) :
    ∃ out, applyCol vals = .ok out := by
  induction vals with
  | nil => exact ⟨[], rfl⟩
  | cons v rest ih =>
    obtain ⟨out, ho⟩ := ih (fun w hw s hs hd => h w (List.mem_cons_of_mem _ hw) s hs hd)
    have hv : ∃ t, (match v with
        | some s => transform_military_time s
        | none => Except.ok none) = Except.ok t := by
      cases v with
      | none => exact ⟨none, rfl⟩
      | some s =>
        show ∃ t, transform_military_time s = Except.ok t
        unfold transform_military_time
        by_cases hd : pyIsDigit s
        · rw [if_pos hd]
          obtain ⟨hm, hhm⟩ :=
            Option.isSome_iff_exists.mp (h _ (List.mem_cons_self _ _) s rfl hd)
          rw [hhm]
          exact ⟨some hm, rfl⟩
        · rw [if_neg hd]
          exact ⟨none, rfl⟩
    obtain ⟨t, ht⟩ := hv
    refine ⟨t :: out, ?_⟩
    simp only [applyCol]
    rw [ht, ok_bind, ho, ok_bind]

/-- C1 counterexample: the raw time string "800" does not drop the row; the
row survives and normalize parses "800" as the wall-clock time 08:00,
because strptime with %H%M accepts a one-digit hour. -/
theorem C1_counterexample :
    (transform_gt [{ rFull with time := some "800 - 850" }]).map
      (fun t => t.rows.map Row.start_time) = .ok [some (8, 0)] := rfl

/-- C1 (amended): normalize converts a surviving raw time string to a
wall-clock time exactly when it is all decimal digits and matches the
strptime %H%M pattern (one- or two-digit hour up to 23, then minutes up to
59); "0800" gives 08:00 and "800" also gives 08:00 with the row retained; a
present non-digit raw string yields an absent converted time on a retained
row; rows are never dropped by the conversion step, so the output has one
row per record surviving the raw-presence filter; an all-digit string that
strptime rejects aborts the run with a ValueError. -/
theorem C1_amended (s : String) (thu : String) (rs : List FlatRecord) (t : Table)
    (h : transformWith thu rs = .ok t) :
    transform_military_time "0800" = .ok (some (8, 0)) ∧
    transform_military_time "800" = .ok (some (8, 0)) ∧
    (pyIsDigit s = false → transform_military_time s = .ok none) ∧
    (pyIsDigit s = true → strptimeHM s.data = none →
      transform_military_time s = .error .valueError) ∧
    t.rows.map Row.start_time
      = ((rs.map splitRec).filter survives).map (fun w => tmtVal w.st) ∧
    t.rows.length = ((rs.map splitRec).filter survives).length := by
  obtain ⟨hrows, -, -, -⟩ := transformWith_ok h
  refine ⟨rfl, rfl, ?_, ?_, ?_, ?_⟩
  · intro hd
    unfold transform_military_time
    rw [if_neg (by simp [hd])]
  · intro hd hn
    unfold transform_military_time
    rw [if_pos hd, hn]
  · rw [hrows, List.map_map]
    rfl
  · rw [hrows, List.length_map]

/-- C1 witness: the single record with times "0800 - 0915" survives and its
start column is the converted value of its raw start string. -/
theorem C1_amended_witness :
    tFull.rows.map Row.start_time
      = (([rFull].map splitRec).filter survives).map (fun w => tmtVal w.st) :=
  (C1_amended "8:00" "thursday" [rFull] tFull rfl).2.2.2.2.1

/-- C2 counterexample: normalize raises on the empty record sequence — the
DataFrame has no columns and df.drop raises KeyError — in both sources. -/
theorem C2_counterexample :
    transform_gt [] = .error (.keyError "attributes") ∧
    transform_etl [] = .error (.keyError "attributes") := ⟨rfl, rfl⟩

/-- C2 (amended): normalize completes without raising provided the record
sequence is non-empty, some record carries each meeting-derived key
(building_coords, professors, date_range, time, day_of_week, building),
both split widths are exactly 2, and every surviving all-digit raw time
string parses under strptime %H%M; outside those conditions the stage can
raise (KeyError on a missing column, ValueError on a split-width mismatch
or an unparsable all-digit time). -/
theorem C2_amended (thu : String) (rs : List FlatRecord)
    (h0 : rs ≠ [])
    (h1 : ∃ r ∈ rs, r.building_coords.isSome)
    (h2 : ∃ r ∈ rs, r.professors.isSome)
    (h3 : ∃ r ∈ rs, r.date_range.isSome)
    (h4 : ∃ r ∈ rs, r.time.isSome)
    (h5 : ∃ r ∈ rs, r.day_of_week.isSome)
    (h6 : ∃ r ∈ rs, r.building.isSome)
    (hw1 : seriesSplitWidth (rs.map FlatRecord.date_range) = 2)
    (hw2 : seriesSplitWidth (rs.map FlatRecord.time) = 2)
    (hp : ∀ w ∈ (rs.map splitRec).filter survives, ∀ s, (w.st = some s ∨ w.et = some s) →
      pyIsDigit s = true → (strptimeHM s.data).isSome) :
    ∃ t, transformWith thu rs = .ok t := by
  have hattr : "attributes" ∈ dfCols rs := by
    cases rs with
    | nil => exact absurd rfl h0
    | cons r rest => exact mem_dfCols.mpr ⟨r, List.mem_cons_self _ _, attributes_mem_recKeys r⟩
  have hbc : "building_coords" ∈ dfCols rs := by
    obtain ⟨r, hr, hs⟩ := h1
    exact mem_dfCols.mpr ⟨r, hr, coords_mem_recKeys.mpr hs⟩
  have hpr : "professors" ∈ dfCols rs := by
    obtain ⟨r, hr, hs⟩ := h2
    exact mem_dfCols.mpr ⟨r, hr, professors_mem_recKeys.mpr hs⟩
  have hdr : "date_range" ∈ dfCols rs := by
    obtain ⟨r, hr, hs⟩ := h3
    exact mem_dfCols.mpr ⟨r, hr, date_range_mem_recKeys.mpr hs⟩
  have htm : "time" ∈ dfCols rs := by
    obtain ⟨r, hr, hs⟩ := h4
    exact mem_dfCols.mpr ⟨r, hr, time_mem_recKeys.mpr hs⟩
  have hdw : "day_of_week" ∈ dfCols rs := by
    obtain ⟨r, hr, hs⟩ := h5
    exact mem_dfCols.mpr ⟨r, hr, day_mem_recKeys.mpr hs⟩
  have hbl : "building" ∈ dfCols rs := by
    obtain ⟨r, hr, hs⟩ := h6
    exact mem_dfCols.mpr ⟨r, hr, building_mem_recKeys.mpr hs⟩
  have sub : ∀ c : String, c ∈ dfCols rs →
      c ∉ (["attributes", "building_coords", "professors"] : List String) →
      c ∈ removeCols (dfCols rs) ["attributes", "building_coords", "professors"] := by
    intro c hc hnb
    unfold removeCols
    rw [List.mem_filter]
    refine ⟨hc, ?_⟩
    simpa using hnb
  have hdr1 := sub _ hdr (by decide)
  have htm1 := sub _ htm (by decide)
  have hdw1 := sub _ hdw (by decide)
  have hbl1 := sub _ hbl (by decide)
  have hstok : ∃ sts, applyCol (((rs.map splitRec).filter survives).map SplitRow.st) = .ok sts := by
    apply applyCol_ok_of
    intro v hv s hs hd
    obtain ⟨w, hw, rfl⟩ := List.mem_map.mp hv
    exact hp w hw s (Or.inl hs) hd
  have hetok : ∃ ets, applyCol (((rs.map splitRec).filter survives).map SplitRow.et) = .ok ets := by
    apply applyCol_ok_of
    intro v hv s hs hd
    obtain ⟨w, hw, rfl⟩ := List.mem_map.mp hv
    exact hp w hw s (Or.inr hs) hd
  obtain ⟨sts, hsts⟩ := hstok
  obtain ⟨ets, hets⟩ := hetok
  refine ⟨{ cols := finalCols thu (removeCols (dfCols rs)
              ["attributes", "building_coords", "professors"]),
            rows := finishRows ((rs.map splitRec).filter survives) sts ets }, ?_⟩
  simp only [transformWith]
  rw [if_neg (not_not_intro hattr), if_neg (not_not_intro hbc), if_neg (not_not_intro hpr),
    if_neg (not_not_intro hdr1), if_neg (by simp [hw1]), if_neg (not_not_intro htm1),
    if_neg (by simp [hw2])]
  simp only [hsts, hets]
  rw [if_neg (not_not_intro hdw1), if_neg (not_not_intro hbl1)]

/-- C2 witness: one fully populated record satisfies every side condition
and normalize succeeds on it. -/
theorem C2_amended_witness : ∃ t, transformWith "thursday" [rFull] = .ok t :=
  C2_amended "thursday" [rFull] (by simp)
    ⟨rFull, by simp, rfl⟩ ⟨rFull, by simp, rfl⟩ ⟨rFull, by simp, rfl⟩
    ⟨rFull, by simp, rfl⟩ ⟨rFull, by simp, rfl⟩ ⟨rFull, by simp, rfl⟩
    rfl rfl
    (by
      intro w hw s hs hd
      simp only [List.map_cons, List.map_nil] at hw
      have hw2 : w = splitRec rFull := by
        have : (List.filter survives [splitRec rFull]) = [splitRec rFull] := rfl
        rw [this] at hw
        simpa using hw
      subst hw2
      rcases hs with hs | hs
      · have hst : (splitRec rFull).st = some "0800" := rfl
        rw [hst] at hs
        cases hs
        decide
      · have het : (splitRec rFull).et = some "0915" := rfl
        rw [het] at hs
        cases hs
        decide)

/-- C4 counterexample: a present dateRange without the separator does not
yield absent startDate and endDate — pandas keeps the whole raw string as
startDate and only endDate is absent. -/
theorem C4_counterexample :
    (transform_gt [rFull, { rFull with date_range := some "spring2025" }]).map
      (fun t => t.rows.map (fun r => (r.start_date, r.end_date)))
      = .ok [(some "2025-01-06", some "2025-05-02"), (some "spring2025", none)] := rfl

/-- C4 (amended): when the batch splits to width 2, a record whose dateRange
(resp. time) contains no " - " receives the whole raw string as startDate
(resp. raw start time) and an absent endDate (resp. raw end time) — and in
the time case the row is then dropped; when no value in the batch splits
into exactly two parts, the split assignment raises instead of returning. -/
theorem C4_amended (r : FlatRecord) (s : String) (thu : String) (rs : List FlatRecord) :
    (r.date_range = some s → splitDR s = [s] →
      (splitRec r).sd = some s ∧ (splitRec r).ed = none) ∧
    (r.time = some s → splitDR s = [s] →
      (splitRec r).st = some s ∧ (splitRec r).et = none ∧ survives (splitRec r) = false) ∧
    (seriesSplitWidth (rs.map FlatRecord.date_range) ≠ 2 → ∀ t, transformWith thu rs ≠ .ok t) := by
  refine ⟨?_, ?_, ?_⟩
  · intro hdr hsp
    constructor <;> simp [splitRec, splitTwoOpt, hdr, hsp]
  · intro ht hsp
    refine ⟨?_, ?_, ?_⟩ <;> simp [splitRec, splitTwoOpt, survives, ht, hsp]
  · intro hne t hok
    exact hne (transformWith_ok hok).2.2.1

/-- C4 witness: the record with separator-free date and time strings
receives the whole string as the start half and an absent end half, and the
empty batch (whose split width is 0) cannot produce a table. -/
theorem C4_amended_witness :
    ((splitRec rNoSep).sd = some "spring2025" ∧ (splitRec rNoSep).ed = none) ∧
    ((splitRec rNoSep).st = some "spring2025" ∧ (splitRec rNoSep).et = none ∧
      survives (splitRec rNoSep) = false) ∧
    (∀ t, transformWith "thursday" [] ≠ .ok t) :=
  ⟨(C4_amended rNoSep "spring2025" "thursday" []).1 rfl rfl,
   (C4_amended rNoSep "spring2025" "thursday" []).2.1 rfl rfl,
   (C4_amended rNoSep "spring2025" "thursday" []).2.2 (by decide)⟩

/-- C6: a section whose meetings sequence is empty yields a flat record with
all six meeting-derived keys absent (no placeholder values), and inserting
that record anywhere in a batch leaves the normalized rows exactly those of
the batch without it: the record fails the missing-times filter. -/
theorem C6 (f : List String → List Int → Except PyErr AttrVal) (cs : Caches) (i : String)
    (course : CourseRec) (l : String) (cd : SectionRec) (r : FlatRecord) (thu : String)
    (xs ys : List FlatRecord) (t : Table)
    (hm : cd.meetings = [])
    (h : buildRecord f cs i course l cd = .ok r)
    (ht : transformWith thu (xs ++ r :: ys) = .ok t) :
    (r.time = none ∧ r.day_of_week = none ∧ r.building = none ∧ r.building_coords = none ∧
      r.professors = none ∧ r.date_range = none) ∧
    survives (splitRec r) = false ∧
    t.rows = (((xs ++ ys).map splitRec).filter survives).map okRow := by
  obtain ⟨r0, aidx, attrs, hcore, hattrs, rfl⟩ := buildRecord_ok h
  have hmf := (buildRecordCore_ok hcore).2.2.2.2.2.2.2.2.1 hm
  have hsur : survives (splitRec { r0 with attributes := attrs }) = false := by
    simp [splitRec, splitTwoOpt, survives, show r0.time = none from hmf.1]
  refine ⟨⟨hmf.1, hmf.2.1, hmf.2.2.1, hmf.2.2.2.1, hmf.2.2.2.2.1, hmf.2.2.2.2.2⟩, hsur, ?_⟩
  rw [(transformWith_ok ht).1]
  simp [List.map_append, List.filter_append, List.filter_cons, hsur]

/-- C6 witness: the concrete no-meeting section produces the meeting-free
record rB, and normalizing [rFull, rB] yields only the rFull row. -/
theorem C6_witness :
    (rB.time = none ∧ rB.day_of_week = none ∧ rB.building = none ∧ rB.building_coords = none ∧
      rB.professors = none ∧ rB.date_range = none) ∧
    survives (splitRec rB) = false ∧
    tC6.rows = ((([rFull] ++ []).map splitRec).filter survives).map okRow :=
  C6 attrsGt exCaches "CS 9000" courseNoMeet "B" cdNoMeet rB "thursday" [rFull] [] tC6
    rfl rfl rfl

theorem mem_finalCols_weekday {thu : String} (cols1 : List String) {c : String}
    (hc : c ∈ (["monday", "tuesday", "wednesday", thu, "friday"] : List String))
    (hne : c ≠ "day_of_week") :
    c ∈ finalCols thu cols1 := by
  unfold finalCols removeCols
  rw [List.mem_filter]
  refine ⟨List.mem_append_right _ hc, by simp [hne]⟩

theorem dow_not_mem_finalCols (thu : String) (cols1 : List String) :
    "day_of_week" ∉ finalCols thu cols1 := by
  intro h
  unfold finalCols removeCols at h
  rw [List.mem_filter] at h
  simp at h

theorem mem_finalCols_cases {thu : String} {rs : List FlatRecord} {c : String}
    (h : c ∈ finalCols thu (removeCols (dfCols rs) ["attributes", "building_coords", "professors"])) :
    c ∈ baseKeys ∨ c ∈ (["start_date", "end_date", "start_time", "end_time"] : List String) ∨
      c ∈ (["monday", "tuesday", "wednesday", thu, "friday"] : List String) := by
  unfold finalCols removeCols at h
  rw [List.mem_filter] at h
  obtain ⟨h1, -⟩ := h
  rcases List.mem_append.mp h1 with h2 | h2
  · rw [List.mem_filter] at h2
    rcases List.mem_append.mp h2.1 with h3 | h3
    · rw [List.mem_filter] at h3
      exact Or.inl (dfCols_subset h3.1)
    · exact Or.inr (Or.inl h3)
  · exact Or.inr (Or.inr h2)

/-- C7 counterexample: src/etl.py names its Thursday column "thurday", so
normalize there does not produce a column named "thursday". -/
theorem C7_counterexample :
    (transform_etl [rFull]).map (fun t => (t.cols.contains "thursday", t.cols.contains "thurday"))
      = .ok (false, true) := rfl

/-- C7 (amended): gt_class_etl.py derives the five weekday boolean columns
named monday..friday while etl.py spells the fourth "thurday"; in both, the
values test membership of the literal letters M, T, W, R, F in day_of_week,
a record with absent day_of_week gets all five false without error, and the
record with dayCodes "MWF" gets exactly monday, wednesday, friday true. -/
theorem C7_amended (rs : List FlatRecord) (t u : Table) (w : SplitRow)
    (he : transform_etl rs = .ok t) (hg : transform_gt rs = .ok u)
    (hw : w.r.day_of_week = none) :
    ("monday" ∈ u.cols ∧ "tuesday" ∈ u.cols ∧ "wednesday" ∈ u.cols ∧ "thursday" ∈ u.cols ∧
      "friday" ∈ u.cols ∧ "day_of_week" ∉ u.cols) ∧
    ("thurday" ∈ t.cols ∧ "thursday" ∉ t.cols) ∧
    u.rows = ((rs.map splitRec).filter survives).map okRow ∧
    ((okRow w).monday = false ∧ (okRow w).tuesday = false ∧ (okRow w).wednesday = false ∧
      (okRow w).thursday = false ∧ (okRow w).friday = false) ∧
    (transform_gt [rFull]).map
        (fun v => v.rows.map (fun r => (r.monday, r.tuesday, r.wednesday, r.thursday, r.friday)))
      = .ok [(true, false, true, false, true)] := by
  have hu := transformWith_ok hg
  have hte := transformWith_ok he
  refine ⟨?_, ⟨?_, ?_⟩, hu.1, ?_, rfl⟩
  · rw [hu.2.1]
    refine ⟨mem_finalCols_weekday _ (by decide) (by decide),
      mem_finalCols_weekday _ (by decide) (by decide),
      mem_finalCols_weekday _ (by decide) (by decide),
      mem_finalCols_weekday _ (by decide) (by decide),
      mem_finalCols_weekday _ (by decide) (by decide),
      dow_not_mem_finalCols _ _⟩
  · rw [hte.2.1]
    exact mem_finalCols_weekday _ (by decide) (by decide)
  · rw [hte.2.1]
    intro hmem
    rcases mem_finalCols_cases hmem with hx | hx | hx <;> revert hx <;> decide
  · simp [okRow, mkRow, strContains, hw]

/-- C7 witness: on the single full record, the etl.py table carries the
misspelled Thursday column and not the claimed name. -/
theorem C7_amended_witness :
    "thurday" ∈ tFullEtl.cols ∧ "thursday" ∉ tFullEtl.cols :=
  (C7_amended [rFull] tFullEtl tFull (splitRec rNoMeeting) rfl rfl rfl).2.1

/-- C8 counterexample: buildingRaw "Howey L1 annex" has no trailing
whitespace-separated token ending in a digit, yet normalize extracts
"Howey" instead of leaving building absent — re.search does not anchor the
room token at the end of the string. -/
theorem C8_counterexample :
    (transform_gt [{ rFull with building := some "Howey L1 annex" }]).map
      (fun t => t.rows.map Row.building) = .ok [some "Howey"] := rfl

/-- C8 (amended): building is the re.search capture of (.\x2a) \w+\d — the
text before the last space that is followed by one or more word characters
and then a digit; the token need not be trailing nor end in the digit; when
no such position exists the value is absent and the row is retained; the
Clough example extracts exactly as the claim states. -/
theorem C8_amended (rs : List FlatRecord) (t : Table) (thu : String)
    (h : transformWith thu rs = .ok t) :
    t.rows.map Row.building
      = ((rs.map splitRec).filter survives).map (fun w => w.r.building.bind extractBuilding) ∧
    extractBuilding "Clough Undergraduate Learning Commons G25"
      = some "Clough Undergraduate Learning Commons" ∧
    (transform_gt [{ rFull with building := some "NoDigits Here" }]).map
        (fun v => v.rows.map Row.building) = .ok [none] := by
  refine ⟨?_, by decide, rfl⟩
  rw [(transformWith_ok h).1, List.map_map]
  rfl

/-- C8 witness: the building column of the single-record table is the
extract of its raw building string. -/
theorem C8_amended_witness :
    tFull.rows.map Row.building
      = (([rFull].map splitRec).filter survives).map (fun w => w.r.building.bind extractBuilding) :=
  (C8_amended [rFull] tFull "thursday" rfl).1

/-- C3 counterexample: on the document whose only section points its
scheduleTypes index past the end of the cache, both flatteners fail with
the bare IndexError, a value carrying no MalformedDocument structure and no
course or section key. -/
theorem C3_counterexample :
    transform_json_to_list_gt badIdxDoc = .error .indexError ∧
    transform_json_to_list_etl badIdxDoc = .error .indexError := ⟨rfl, rfl⟩

/-- C3 (amended): on every document with an out-of-range cache index or a
truncated course/section/meeting tuple among the positions read, both
flatten implementations fail the whole run — the result is an error and no
record list — but the error is the bare untyped IndexError, which
identifies no offending course or section key. -/
theorem C3_amended (doc : CatalogDoc) (hmal : docMalformed doc = true) :
    transform_json_to_list_etl doc = .error .indexError ∧
    transform_json_to_list_gt doc = .error .indexError := by
  constructor
  · exact flatten_malformed (fun cache idxs v h => attrsEtl_all h)
      (fun cache idxs e h => attrsEtl_err h) hmal
  · exact flatten_malformed (fun cache idxs v h => attrsGt_all h)
      (fun cache idxs e h => attrsGt_err h) hmal

/-- C3 witness: the document with a section tuple truncated to three
positions is malformed and flatten returns the bare IndexError on it. -/
theorem C3_amended_witness :
    docMalformed shortTupleDoc = true ∧
    transform_json_to_list_etl shortTupleDoc = .error .indexError :=
  ⟨by decide, (C3_amended shortTupleDoc (by decide)).1⟩

/-- C5 evidence: the etl.py attributes loop keeps only the last resolved
label ("Lab") for attributeIdxs [0, 1] and leaves the raw empty list for
empty attributeIdxs, while gt_class_etl.py resolves the full label list but
stores None when attributeIdxs is empty — neither matches the claimed
full-list resolution with an empty list for empty input. -/
theorem C5_evidence :
    (transform_json_to_list_etl attrsDoc).map (List.map FlatRecord.attributes)
      = .ok [.strV "Lab", .listV []] ∧
    (transform_json_to_list_gt attrsDoc).map (List.map FlatRecord.attributes)
      = .ok [.listV ["Honors", "Lab"], .noneV] := ⟨rfl, rfl⟩

/-- C9: for every well-formed document (full tuples, in-range cache
indices) whose section crn values are per-section unique, flatten succeeds,
emits exactly one record per (course, section) pair in the input iteration
order, and the (crn, sectionId) pairs of the output contain no duplicates. -/
theorem C9 (doc : CatalogDoc) (hwf : docWF doc = true) (hcrn : (docCrns doc).Nodup) :
    ∃ rs, transform_json_to_list_gt doc = .ok rs ∧
      rs.map (fun r => (r.name, r.sect)) = docPairs doc ∧
      (rs.map (fun r => (r.crn, r.sect))).Nodup := by
  have Hf : ∀ idxs, (∀ a ∈ idxs, (pyIdx doc.caches.attributes a).isSome) →
      ∃ v, attrsGt doc.caches.attributes idxs = .ok v := fun idxs h => attrsGt_ok_of h
  have hw : ∀ p ∈ doc.courses, courseWF doc.caches p.2 = true := by
    intro p hp
    unfold docWF at hwf
    rw [List.all_eq_true] at hwf
    exact hwf p hp
  obtain ⟨rs, hok, hpairs, hcrns⟩ := flattenCourses_wf_ok Hf hw
  refine ⟨rs, hok, hpairs, ?_⟩
  apply List.Nodup.of_map Prod.fst
  rw [List.map_map]
  have hcomp : (Prod.fst ∘ fun r : FlatRecord => (r.crn, r.sect)) = FlatRecord.crn := rfl
  rw [hcomp, hcrns]
  exact hcrn

/-- C9 witness: the end-to-end example document of the specification is
well-formed and flatten emits its single record with unique keys. -/
theorem C9_witness :
    docWF exDoc = true ∧ (docCrns exDoc).Nodup ∧
    ∃ rs, transform_json_to_list_gt exDoc = .ok rs ∧
      rs.map (fun r => (r.name, r.sect)) = docPairs exDoc ∧
      (rs.map (fun r => (r.crn, r.sect))).Nodup :=
  ⟨by decide, by decide, C9 exDoc (by decide) (by decide)⟩

theorem buildRecord_strip (cs : Caches) (i : String) (course : CourseRec) (l : String)
    (cd : SectionRec) :
    (buildRecord attrsEtl cs i course l cd).map stripAttrs
      = (buildRecord attrsGt cs i course l cd).map stripAttrs := by
  simp only [buildRecord]
  cases hc : buildRecordCore cs i course l cd with
  | error e => rfl
  | ok pr =>
    obtain ⟨r0, aidx⟩ := pr
    simp only [ok_bind]
    cases hE : attrsEtl cs.attributes aidx with
    | error e =>
      cases hG : attrsGt cs.attributes aidx with
      | error e2 =>
        have g1 : e = .indexError := attrsEtl_err hE
        have g2 : e2 = .indexError := attrsGt_err hG
        subst g1
        subst g2
        rfl
      | ok v =>
        obtain ⟨v2, hv2⟩ := attrsEtl_ok_of (attrsGt_all hG)
        rw [hv2] at hE
        cases hE
    | ok v =>
      cases hG : attrsGt cs.attributes aidx with
      | error e2 =>
        obtain ⟨v2, hv2⟩ := attrsGt_ok_of (attrsEtl_all hE)
        rw [hv2] at hG
        cases hG
      | ok v2 => rfl

theorem flattenSections_strip (cs : Caches) (i : String) (course : CourseRec)
    (secs : List (String × SectionRec)) :
    (flattenSections attrsEtl cs i course secs).map (List.map stripAttrs)
      = (flattenSections attrsGt cs i course secs).map (List.map stripAttrs) := by
  induction secs with
  | nil => rfl
  | cons q rest ih =>
    obtain ⟨l, cd⟩ := q
    simp only [flattenSections]
    have hb := buildRecord_strip cs i course l cd
    cases hE : buildRecord attrsEtl cs i course l cd with
    | error e =>
      cases hG : buildRecord attrsGt cs i course l cd with
      | error e2 =>
        have g1 : e = .indexError := buildRecord_err (fun c2 i2 e3 h => attrsEtl_err h) hE
        have g2 : e2 = .indexError := buildRecord_err (fun c2 i2 e3 h => attrsGt_err h) hG
        subst g1
        subst g2
        rfl
      | ok v =>
        rw [hE, hG] at hb
        simp [Except.map] at hb
    | ok r =>
      cases hG : buildRecord attrsGt cs i course l cd with
      | error e2 =>
        rw [hE, hG] at hb
        simp [Except.map] at hb
      | ok r2 =>
        rw [hE, hG] at hb
        simp only [Except.map] at hb
        injection hb with hb
        simp only [ok_bind]
        cases hR : flattenSections attrsEtl cs i course rest with
        | error e =>
          cases hR2 : flattenSections attrsGt cs i course rest with
          | error e2 =>
            have g1 : e = .indexError :=
              flattenSections_err (fun c2 i2 e3 h => attrsEtl_err h) hR
            have g2 : e2 = .indexError :=
              flattenSections_err (fun c2 i2 e3 h => attrsGt_err h) hR2
            subst g1
            subst g2
            rfl
          | ok v =>
            rw [hR, hR2] at ih
            simp [Except.map] at ih
        | ok rs1 =>
          cases hR2 : flattenSections attrsGt cs i course rest with
          | error e2 =>
            rw [hR, hR2] at ih
            simp [Except.map] at ih
          | ok rs2 =>
            rw [hR, hR2] at ih
            simp only [Except.map] at ih
            injection ih with ih
            simp only [ok_bind, Except.map]
            rw [List.map_cons, List.map_cons, hb, ih]

theorem flattenCourses_strip (cs : Caches) (courses : List (String × CourseRec)) :
    (flattenCourses attrsEtl cs courses).map (List.map stripAttrs)
      = (flattenCourses attrsGt cs courses).map (List.map stripAttrs) := by
  induction courses with
  | nil => rfl
  | cons c rest ih =>
    obtain ⟨i, course⟩ := c
    simp only [flattenCourses]
    cases hT : tupGet course.arity 1 course.sections with
    | error e => rfl
    | ok secs =>
      simp only [ok_bind]
      have hs := flattenSections_strip cs i course secs
      cases hE : flattenSections attrsEtl cs i course secs with
      | error e =>
        cases hG : flattenSections attrsGt cs i course secs with
        | error e2 =>
          have g1 : e = .indexError :=
            flattenSections_err (fun c2 i2 e3 h => attrsEtl_err h) hE
          have g2 : e2 = .indexError :=
            flattenSections_err (fun c2 i2 e3 h => attrsGt_err h) hG
          subst g1
          subst g2
          rfl
        | ok v =>
          rw [hE, hG] at hs
          simp [Except.map] at hs
      | ok rs1 =>
        cases hG : flattenSections attrsGt cs i course secs with
        | error e2 =>
          rw [hE, hG] at hs
          simp [Except.map] at hs
        | ok rs2 =>
          rw [hE, hG] at hs
          simp only [Except.map] at hs
          injection hs with hs
          simp only [ok_bind]
          cases hR : flattenCourses attrsEtl cs rest with
          | error e =>
            cases hR2 : flattenCourses attrsGt cs rest with
            | error e2 =>
              have g1 : e = .indexError :=
                flattenCourses_err (fun c2 i2 e3 h => attrsEtl_err h) hR
              have g2 : e2 = .indexError :=
                flattenCourses_err (fun c2 i2 e3 h => attrsGt_err h) hR2
              subst g1
              subst g2
              rfl
            | ok v =>
              rw [hR, hR2] at ih
              simp [Except.map] at ih
          | ok more1 =>
            cases hR2 : flattenCourses attrsGt cs rest with
            | error e2 =>
              rw [hR, hR2] at ih
              simp [Except.map] at ih
            | ok more2 =>
              rw [hR, hR2] at ih
              simp only [Except.map] at ih
              injection ih with ih
              simp only [ok_bind, Except.map]
              rw [List.map_append, List.map_append, hs, ih]

theorem contains_renameThu {bad : List String} (hb : "thurday" ∉ bad) (hb2 : "thursday" ∉ bad)
    (c : String) : bad.contains (renameThu c) = bad.contains c := by
  unfold renameThu
  split
  next hcth =>
    subst hcth
    rw [show bad.contains "thursday" = false from by simpa using hb2,
      show bad.contains "thurday" = false from by simpa using hb]
  next => rfl

theorem renameThu_removeCols (l : List String) (bad : List String)
    (hb : "thurday" ∉ bad) (hb2 : "thursday" ∉ bad) :
    (removeCols l bad).map renameThu = removeCols (l.map renameThu) bad := by
  have hpf : ((fun c => !(bad.contains c)) ∘ renameThu) = (fun c => !(bad.contains c)) := by
    funext c
    simp only [Function.comp_apply]
    rw [contains_renameThu hb hb2 c]
  unfold removeCols
  rw [List.filter_map, hpf]

theorem map_renameThu_id {l : List String} (h : ∀ c ∈ l, c ≠ "thurday") :
    l.map renameThu = l := by
  induction l with
  | nil => rfl
  | cons c l ih =>
    rw [List.map_cons, ih (fun x hx => h x (List.mem_cons_of_mem _ hx))]
    have : renameThu c = c := by
      unfold renameThu
      rw [if_neg (h c (List.mem_cons_self _ _))]
    rw [this]

theorem finalCols_rename (rs : List FlatRecord) :
    (finalCols "thurday"
        (removeCols (dfCols rs) ["attributes", "building_coords", "professors"])).map renameThu
      = finalCols "thursday"
        (removeCols (dfCols rs) ["attributes", "building_coords", "professors"]) := by
  have hsub : ∀ c ∈ removeCols (dfCols rs) ["attributes", "building_coords", "professors"]
      ++ ["start_date", "end_date", "start_time", "end_time"], c ≠ "thurday" := by
    intro c hc
    rcases List.mem_append.mp hc with hc | hc
    · have hdc : c ∈ dfCols rs := by
        unfold removeCols at hc
        exact (List.mem_filter.mp hc).1
      have hbk := dfCols_subset hdc
      intro heq
      subst heq
      revert hbk
      decide
    · intro heq
      subst heq
      revert hc
      decide
  unfold finalCols
  rw [renameThu_removeCols _ _ (by decide) (by decide), List.map_append,
    renameThu_removeCols _ _ (by decide) (by decide), map_renameThu_id hsub]
  rfl

theorem transform_etl_gt (rs : List FlatRecord) :
    (transform_etl rs).map (fun t => Table.mk (t.cols.map renameThu) t.rows)
      = transform_gt rs := by
  unfold transform_etl transform_gt
  simp only [transformWith]
  by_cases h1 : "attributes" ∉ dfCols rs
  · rw [if_pos h1, if_pos h1]; rfl
  rw [if_neg h1, if_neg h1]
  by_cases h2 : "building_coords" ∉ dfCols rs
  · rw [if_pos h2, if_pos h2]; rfl
  rw [if_neg h2, if_neg h2]
  by_cases h3 : "professors" ∉ dfCols rs
  · rw [if_pos h3, if_pos h3]; rfl
  rw [if_neg h3, if_neg h3]
  by_cases h4 : "date_range" ∉ removeCols (dfCols rs) ["attributes", "building_coords", "professors"]
  · rw [if_pos h4, if_pos h4]; rfl
  rw [if_neg h4, if_neg h4]
  by_cases h5 : seriesSplitWidth (rs.map FlatRecord.date_range) ≠ 2
  · rw [if_pos h5, if_pos h5]; rfl
  rw [if_neg h5, if_neg h5]
  by_cases h6 : "time" ∉ removeCols (dfCols rs) ["attributes", "building_coords", "professors"]
  · rw [if_pos h6, if_pos h6]; rfl
  rw [if_neg h6, if_neg h6]
  by_cases h7 : seriesSplitWidth (rs.map FlatRecord.time) ≠ 2
  · rw [if_pos h7, if_pos h7]; rfl
  rw [if_neg h7, if_neg h7]
  cases hA : applyCol (((rs.map splitRec).filter survives).map SplitRow.st) with
  | error e => rfl
  | ok sts =>
    cases hB : applyCol (((rs.map splitRec).filter survives).map SplitRow.et) with
    | error e => rfl
    | ok ets =>
      show Except.map (fun t : Table => Table.mk (t.cols.map renameThu) t.rows)
          (if "day_of_week" ∉ removeCols (dfCols rs) ["attributes", "building_coords", "professors"]
            then Except.error (PyErr.keyError "day_of_week")
            else if "building" ∉ removeCols (dfCols rs) ["attributes", "building_coords", "professors"]
              then Except.error (PyErr.keyError "building")
              else Except.ok
                { cols := finalCols "thurday"
                    (removeCols (dfCols rs) ["attributes", "building_coords", "professors"]),
                  rows := finishRows ((rs.map splitRec).filter survives) sts ets })
        = ((if "day_of_week" ∉ removeCols (dfCols rs) ["attributes", "building_coords", "professors"]
            then Except.error (PyErr.keyError "day_of_week")
            else if "building" ∉ removeCols (dfCols rs) ["attributes", "building_coords", "professors"]
              then Except.error (PyErr.keyError "building")
              else Except.ok
                { cols := finalCols "thursday"
                    (removeCols (dfCols rs) ["attributes", "building_coords", "professors"]),
                  rows := finishRows ((rs.map splitRec).filter survives) sts ets })
            : Except PyErr Table)
      by_cases h8 : "day_of_week" ∉ removeCols (dfCols rs) ["attributes", "building_coords", "professors"]
      · rw [if_pos h8, if_pos h8]; rfl
      rw [if_neg h8, if_neg h8]
      by_cases h9 : "building" ∉ removeCols (dfCols rs) ["attributes", "building_coords", "professors"]
      · rw [if_pos h9, if_pos h9]; rfl
      rw [if_neg h9, if_neg h9]
      simp only [Except.map]
      rw [finalCols_rename]

/-- C10 counterexample: the two flatteners disagree on the attrsDoc
document (etl.py keeps only the last attribute label and the raw empty
list, gt_class_etl.py keeps the full list and None), and the two transforms
produce different column sets on the same record list (thurday instead of
thursday). -/
theorem C10_counterexample :
    (transform_json_to_list_etl attrsDoc).map (List.map FlatRecord.attributes)
      ≠ (transform_json_to_list_gt attrsDoc).map (List.map FlatRecord.attributes) ∧
    (transform_etl [rFull]).map Table.cols ≠ (transform_gt [rFull]).map Table.cols := by
  constructor
  · intro h
    rw [show (transform_json_to_list_etl attrsDoc).map (List.map FlatRecord.attributes)
        = .ok [.strV "Lab", .listV []] from rfl,
      show (transform_json_to_list_gt attrsDoc).map (List.map FlatRecord.attributes)
        = .ok [.listV ["Honors", "Lab"], .noneV] from rfl] at h
    injection h with h2
    exact absurd h2 (by decide)
  · intro h
    rw [show (transform_etl [rFull]).map Table.cols
        = .ok ["crn", "name", "actual_name", "section", "building", "credits", "schedule_type",
            "campus", "start_date", "end_date", "start_time", "end_time", "monday", "tuesday",
            "wednesday", "thurday", "friday"] from rfl,
      show (transform_gt [rFull]).map Table.cols
        = .ok ["crn", "name", "actual_name", "section", "building", "credits", "schedule_type",
            "campus", "start_date", "end_date", "start_time", "end_time", "monday", "tuesday",
            "wednesday", "thursday", "friday"] from rfl] at h
    injection h with h2
    exact absurd h2 (by decide)

/-- C10 (amended): the two flatteners agree on every document up to the
attributes value of each record (and they fail on exactly the same
documents with the same error), and the two transforms agree on every
record list up to renaming the etl.py column "thurday" to "thursday" — in
particular the row values are always identical. -/
theorem C10_amended (doc : CatalogDoc) (rs : List FlatRecord) :
    (transform_json_to_list_etl doc).map (List.map stripAttrs)
      = (transform_json_to_list_gt doc).map (List.map stripAttrs) ∧
    (transform_etl rs).map (fun t => Table.mk (t.cols.map renameThu) t.rows)
      = transform_gt rs :=
  ⟨flattenCourses_strip doc.caches doc.courses, transform_etl_gt rs⟩

/-- C10 witness: the equivalence instantiated at the concrete attrsDoc
document and the single full record. -/
theorem C10_amended_witness :
    (transform_json_to_list_etl attrsDoc).map (List.map stripAttrs)
      = (transform_json_to_list_gt attrsDoc).map (List.map stripAttrs) ∧
    (transform_etl [rFull]).map (fun t => Table.mk (t.cols.map renameThu) t.rows)
      = transform_gt [rFull] :=
  C10_amended attrsDoc [rFull]

end ClubWebapp
